import Mathlib

/-!
# dvs_panotracking: tracking worker

A shallow embedding of `src/common.cpp` (`undistortPoint`) and
`src/trackingworker.cpp` (`TrackingWorker`), followed by the properties of the
event queue, the undistortion table, the map-update gating, the tracking
quality and the reset sequence.

Conventions of the embedding.

* `float`/`double` values are rationals and arithmetic on them is exact.
* `int` values are integers (counters that only count up are naturals); signed
  overflow, which C++ leaves undefined, is outside the model.
* Functions of libm, Eigen's matrix inverse, the CUDA primitives of
  `direct.cuh`/`common.cuh` and the content of freshly allocated memory are
  fields of `Externals`, over which every theorem quantifies.
* A read outside a `std::vector`, or a division of an `int` by zero, has no
  defined result: the embedded function returns `none` there.
* A singular matrix has no inverse: `inverse` returns `none` on it, and a pose
  computed from it has no defined value. Poses are `Option Vec3`, `none`
  standing for a vector without defined value; what is computed from such a
  pose has no defined value either, and the CUDA primitives receive it as it
  is.
* `track` and `updatePose` return, next to the new state, the list of calls
  they made (`Call`), in order.
-/

namespace PanoTracking

set_option linter.unusedVariables false

/-! ## Data -/

/-- Modelled from the spec: the `Event` record of `event.h`, which is not among
the sources (spec section 3: timestamp, pixel coordinates, polarity and the
undistorted pixel coordinates). -/
structure Event where
  t : ℚ
  x : Int
  y : Int
  polarity : Int
  x_undist : Int
  y_undist : Int
deriving DecidableEq

/-- Rotation vectors and rays (`Eigen::Vector3f`). -/
abbrev Vec3 := Fin 3 → ℚ

/-- Row-major 3x3 matrix (`Matrix3fr` of `common.h`; `Eigen::Matrix3f` denotes
the same matrices). -/
abbrev Matrix3fr := Matrix (Fin 3) (Fin 3) ℚ

/-- CUDA `float2`. -/
abbrev float2 := ℚ × ℚ

/-- CUDA `float4`; the gradient sampler stores the spatial gradient in `x`, `y`
and the residual in `z`. -/
structure float4 where
  x : ℚ
  y : ℚ
  z : ℚ
  w : ℚ
deriving DecidableEq

/-- Distortion coefficients (`camera_parameters_.distort`). -/
structure Distort where
  k1 : ℚ
  k2 : ℚ
  p1 : ℚ
  p2 : ℚ

/-- Modelled from the spec: the `Parameters` record of the class declaration,
which is not among the sources; the fields are those `trackingworker.cpp`
reads. -/
structure Parameters where
  K_cam : Matrix3fr
  K_caminv : Matrix3fr
  px : ℚ
  py : ℚ
  distort : Distort
  camera_width : Int
  camera_height : Int
  output_size_x : Nat
  output_size_y : Nat
  pose_output_dir : String

/-- Image buffer of the `iu` library: its size and its pixels in raster order. -/
structure ImageGpu (α : Type) where
  width : Nat
  height : Nat
  data : List α

/-- Allocation of a `width` x `height` image whose pixels all hold `v`
(`new iu::ImageGpu_...(w, h)` followed by `iu::math::fill`). -/
def ImageGpu.filled {α : Type} (width height : Nat) (v : α) : ImageGpu α :=
  { width := width, height := height, data := List.replicate (width * height) v }

/-- Library call `iu::math::fill(img, v)`: every pixel of the buffer becomes `v`. -/
def fill {α : Type} (img : ImageGpu α) (v : α) : ImageGpu α :=
  { img with data := img.data.map (fun _ => v) }

/-- Constant memory written by `cuda::setCameraMatrices`. -/
structure GpuConstants where
  K_cam : Matrix3fr
  K_caminv : Matrix3fr
  px : ℚ
  py : ℚ
  upscale : ℚ

/-- Calls recorded by `track` and `updatePose`. -/
inductive Call where
  | updatePose
  | getGradients
  | poseLog
  | updateMap
  | update_info
  | createOutput
  | update_output
deriving DecidableEq

/-- What the translation unit takes from outside: libm (`sqrt`, `cos`, `sin`,
`pow`, `M_PI`), Eigen's `inverse()` on the matrices that have an inverse, the
CUDA primitives, and the content of memory returned by `new` before anything
is written to it. `getGradients` gives, per event index, the `float4` the
kernel writes for that event. A pose handed to a CUDA primitive is `none` when
it has no defined value. -/
structure Externals where
  sqrt : ℚ → ℚ
  cos : ℚ → ℚ
  sin : ℚ → ℚ
  pow : ℚ → ℚ → ℚ
  M_PI : ℚ
  inverse : Matrix3fr → Matrix3fr
  getGradients : GpuConstants → ImageGpu ℚ → List float2 → Option Vec3 → Nat → float4
  updateMap : GpuConstants → ImageGpu ℚ → ImageGpu ℚ → ImageGpu ℚ → List float2 →
    Option Vec3 → Option Vec3 → Int → Int → ImageGpu ℚ × ImageGpu ℚ × ImageGpu ℚ
  createOutput : GpuConstants → ImageGpu ℚ → Option (List float2) → Option Vec3 → Int → Int →
    ℚ → ImageGpu (Fin 256 × Fin 256 × Fin 256 × Fin 256)
  uninit_float2 : Nat → float2
  uninit_float4 : Nat → float4
  uninit_uchar4 : Nat → Fin 256 × Fin 256 × Fin 256 × Fin 256

/-- Members of `TrackingWorker` used by `trackingworker.cpp`. The four interface
buffers are lists; the empty list also stands for the `NULL` pointer the
constructor stores (a buffer of the wrong size is replaced either way). -/
structure TrackingWorker where
  device_number_ : Int
  width_ : Int
  height_ : Int
  output_ : ImageGpu ℚ
  output_color_ : ImageGpu (Fin 256 × Fin 256 × Fin 256 × Fin 256)
  occurences_ : ImageGpu ℚ
  normalization_ : ImageGpu ℚ
  events_per_image_ : Nat
  iterations_ : Nat
  image_skip_ : Int
  camera_parameters_ : Parameters
  upscale_ : ℚ
  tracking_quality_ : ℚ
  image_id_ : Nat
  gpu_constants : GpuConstants
  events_cpu_ : List float2
  events_gpu_ : List float2
  image_gradients_cpu_ : List float4
  image_gradients_gpu_ : List float4
  pose_ : Option Vec3
  old_pose_ : Option Vec3
  R_sphere_ : Matrix3fr
  lambda_ : ℚ
  lambda_a_ : ℚ
  lambda_b_ : ℚ
  alpha_ : ℚ
  show_camera_pose_ : Bool
  show_events_ : Bool
  events_ : List Event
  all_events_ : List Event
  running_ : Bool
  reset_pose_ : Bool
  packet_t_ : ℚ
  undistorted : List Int

/-! ## common.cpp -/

/-- Function `undistortPoint` of `common.cpp`: the flag returned and the event
afterwards. `%` and `/` on `int` truncate toward zero. -/
def undistortPoint (event : Event) (undistort : List Int) (camera_width camera_height : Int) :
    Option (Bool × Event) :=
  let idx := event.y * camera_width + event.x
  if idx < 0 then none
  else
    match undistort[idx.toNat]? with
    | none => none
    | some m =>
      if m = -1 then some (false, event)
      else if camera_width = 0 then none
      else
        let x := Int.tmod m camera_width
        let y := Int.tdiv m camera_width
        some (true, { event with x_undist := x, y_undist := y })

/-! ## trackingworker.cpp: the undistortion table -/

/-- Conversion `(int)f` of a float: truncation toward zero. -/
def truncInt (f : ℚ) : Int :=
  if 0 ≤ f then Int.floor f else Int.ceil f

/-- Distorted pixel position `(u_distorted, v_distorted)` computed in the body of
the double loop of `getUndistortMap` for the undistorted pixel `(u, v)`. -/
def distortPixel (E : Externals) (cp : Parameters) (u v : Int) : ℚ × ℚ :=
  let fx := cp.K_cam 0 0
  let fy := cp.K_cam 1 1
  let cx := cp.K_cam 0 2
  let cy := cp.K_cam 1 2
  let k1 := cp.distort.k1
  let k2 := cp.distort.k2
  let p1 := cp.distort.p1
  let p2 := cp.distort.p2
  let x := ((u : ℚ) - cx) / fx
  let y := ((v : ℚ) - cy) / fy
  let r := E.sqrt (x * x + y * y)
  let x_distorted := x * (1 + k1 * r * r + k2 * r * r * r * r) + 2 * p1 * x * y + p2 * (r * r + 2 * x * x)
  let y_distorted := y * (1 + k1 * r * r + k2 * r * r * r * r) + p1 * (r * r + 2 * y * y) + 2 * p2 * x * y
  (fx * x_distorted + cx, fy * y_distorted + cy)

/-- Bounds test of `getUndistortMap` on a distorted position. -/
def inSensor (width height : Int) (d : ℚ × ℚ) : Prop :=
  0 ≤ d.1 ∧ 0 ≤ d.2 ∧ d.1 < (width : ℚ) ∧ d.2 < (height : ℚ)

instance (width height : Int) (d : ℚ × ℚ) : Decidable (inSensor width height d) := by
  unfold inSensor; infer_instance

/-- Slot index `idx_distort` of `getUndistortMap`. -/
def idxDistort (width : Int) (d : ℚ × ℚ) : Int :=
  truncInt d.2 * width + truncInt d.1

/-- Body of the double loop of `getUndistortMap` for the pixel `(u, v)`. -/
def undistortMapBody (E : Externals) (cp : Parameters) (width height : Int)
    (table : List Int) (uv : Int × Int) : List Int :=
  let d := distortPixel E cp uv.1 uv.2
  let idx_distort := idxDistort width d
  let idx_undistort := uv.2 * width + uv.1
  if inSensor width height d then table.set idx_distort.toNat idx_undistort else table

/-- Pixels `(u, v)` in the order the double loop visits them: rows `v`
outermost, columns `u` innermost. -/
def rasterPixels (width height : Int) : List (Int × Int) :=
  (List.range height.toNat).flatMap fun (v : Nat) =>
    (List.range width.toNat).map fun (u : Nat) => ((u : Int), (v : Int))

/-- The table `undistorted` that `TrackingWorker::getUndistortMap` builds. -/
def undistortTable (E : Externals) (cp : Parameters) (width height : Int) : List Int :=
  (rasterPixels width height).foldl (undistortMapBody E cp width height)
    (List.replicate (width * height).toNat (-1))

/-- Method `TrackingWorker::getUndistortMap`. -/
def getUndistortMap (E : Externals) (w : TrackingWorker) : TrackingWorker :=
  { w with undistorted := undistortTable E w.camera_parameters_ w.width_ w.height_ }

/-! ## trackingworker.cpp: pose estimation -/

/-- Method `TrackingWorker::crossmat`. -/
def crossmat (t : Vec3) : Matrix3fr :=
  !![0, -t 2, t 1;
     t 2, 0, -t 0;
     -t 1, t 0, 0]

/-- Eigen's `norm()` of a 3-vector. -/
def vecNorm (E : Externals) (v : Vec3) : ℚ :=
  E.sqrt (v 0 * v 0 + v 1 * v 1 + v 2 * v 2)

/-- Method `TrackingWorker::rodrigues`. -/
def rodrigues (E : Externals) (v : Vec3) : Matrix3fr :=
  let theta := vecNorm E v
  if theta < 1 / 100000000 then 1
  else
    let omega : Vec3 := fun i => v i / theta
    let alpha := E.cos theta
    let beta := E.sin theta
    let gamma := 1 - alpha
    alpha • (1 : Matrix3fr) + beta • crossmat omega + gamma • Matrix.vecMulVec omega omega

/-- Columns of `points` in `updatePose`: `R_sphere_ * K_caminv * (x, y, 1)` for
each entry of `events_cpu_`. -/
def spherePoints (w : TrackingWorker) : List Vec3 :=
  w.events_cpu_.map fun e =>
    (w.R_sphere_ * w.camera_parameters_.K_caminv).mulVec ![e.1, e.2, 1]

/-- The 9x3 matrix `dG_dgsi` of `updatePose`: the blocks `crossmat(-R.row(b))`,
`b = 0, 1, 2`, stacked; row `3 b + c` is indexed by `(b, c)`. -/
def dG_dgsi (R : Matrix3fr) : Matrix (Fin 3 × Fin 3) (Fin 3) ℚ :=
  Matrix.of fun bc k => crossmat (fun j => -R bc.1 j) bc.2 k

/-- The 3x9 matrix `dg_dG` of `updatePose`: the blocks `X_hat(b, id) * Identity`,
`b = 0, 1, 2`, side by side; column `3 b + c` is indexed by `(b, c)`. -/
def dg_dG (X_hat : Vec3) : Matrix (Fin 3) (Fin 3 × Fin 3) ℚ :=
  Matrix.of fun i bc => X_hat bc.1 * (1 : Matrix3fr) i bc.2

/-- The 2x3 matrix `dPI_dg` of `updatePose` for one event, after
`dPI_dg *= upscale_`. -/
def dPI_dg (E : Externals) (w : TrackingWorker) (X_hat : Vec3) (X_hat_norm : ℚ) :
    Matrix (Fin 2) (Fin 3) ℚ :=
  let px := w.camera_parameters_.px
  let py := w.camera_parameters_.py
  w.upscale_ •
    !![-px * X_hat 1 / X_hat_norm / E.M_PI,
       px * X_hat 0 / X_hat_norm / E.M_PI,
       0;
       -py * X_hat 0 * X_hat 2 / E.pow X_hat_norm (3 / 2) / (px / py),
       -py * X_hat 1 * X_hat 2 / E.pow X_hat_norm (3 / 2) / (px / py),
       py / X_hat_norm / (px / py)]

/-- Row `J.row(id)` of `updatePose`: the gradient `(x, y)` of the event times
`dPI_dg * dg_dG * dG_dgsi`. -/
def jacobianRow (E : Externals) (w : TrackingWorker) (R : Matrix3fr) (X_hat : Vec3)
    (g : float4) : Vec3 :=
  let X_hat_norm := X_hat 0 * X_hat 0 + X_hat 1 * X_hat 1 + X_hat 2 * X_hat 2
  Matrix.vecMul (Matrix.vecMul (Matrix.vecMul ![g.x, g.y] (dPI_dg E w X_hat X_hat_norm))
    (dg_dG X_hat)) (dG_dgsi R)

/-- Variables that one iteration of the loop of `updatePose` carries to the
next: `pose_`, `accel_pose` and the gradient buffer (`image_gradients_gpu_`,
copied to `image_gradients_cpu_`). -/
structure PoseIter where
  pose_ : Option Vec3
  accel_pose : Option Vec3
  image_gradients : List float4

/-- Buffer that `cuda::getGradients` fills at the linearisation point
`accel_pose`: one `float4` per event. -/
def sampleGradients (E : Externals) (w : TrackingWorker) (accel_pose : Option Vec3) :
    List float4 :=
  (List.range w.events_cpu_.length).map
    (E.getGradients w.gpu_constants w.output_ w.events_gpu_ accel_pose)

/-- Eigen's `inverse()` of a 3x3 matrix: a matrix of determinant 0 has no
inverse, so there is no defined result. -/
def inverse (E : Externals) (A : Matrix3fr) : Option Matrix3fr :=
  if A.det = 0 then none else some (E.inverse A)

/-- The value one iteration of the loop of `updatePose` assigns to `pose_`, for
a defined linearisation point `accel_pose` and the gradients `grads` sampled
there: `accel_pose - (JtJ + alpha * diag(JtJ)).inverse() * (Jt * -M - alpha *
(accel_pose - init_pose))`. There is no defined value when the matrix is
singular. -/
def gaussNewtonStep (E : Externals) (w : TrackingWorker) (init_pose accel_pose : Vec3)
    (grads : List float4) : Option Vec3 :=
  let R := rodrigues E accel_pose
  let X_hat := (spherePoints w).map R.mulVec
  let J := List.zipWith (jacobianRow E w R) X_hat grads
  let JtJ : Matrix3fr := (J.map fun row => Matrix.vecMulVec row row).sum
  let JtM : Vec3 := (List.zipWith (fun (row : Vec3) (g : float4) => (-g.z) • row) J grads).sum
  let alpha : ℚ := 1
  match inverse E (JtJ + alpha • Matrix.diagonal (fun i => JtJ i i)) with
  | none => none
  | some inv => some (accel_pose - inv.mulVec (JtM - alpha • (accel_pose - init_pose)))

/-- One iteration of the `for` loop of `updatePose`. The gradients are sampled
at `accel_pose` as it is; the new `pose_` is defined when `accel_pose`,
`init_pose` and the inverse are, the new `accel_pose`
`pose_ + alpha_ * (pose_ - old_pose)` when the new and the old `pose_` are. -/
def updatePoseIteration (E : Externals) (w : TrackingWorker) (init_pose : Option Vec3)
    (s : PoseIter) : PoseIter :=
  let grads := sampleGradients E w s.accel_pose
  let old_pose := s.pose_
  let pose : Option Vec3 :=
    match s.accel_pose, init_pose with
    | some a, some i => gaussNewtonStep E w i a grads
    | _, _ => none
  let accel_pose : Option Vec3 :=
    match pose, old_pose with
    | some p, some o => some (p + w.alpha_ • (p - o))
    | _, _ => none
  { pose_ := pose, accel_pose := accel_pose, image_gradients := grads }

/-- The `for` loop of `updatePose`, run `iterations` times. -/
def updatePoseLoop (E : Externals) (w : TrackingWorker) (init_pose : Option Vec3) :
    Nat → PoseIter → PoseIter
  | 0, s => s
  | k + 1, s => updatePoseLoop E w init_pose k (updatePoseIteration E w init_pose s)

/-- Value `std::min(M.sum() / M.size() * upscale_, 1.f)`, where `M` is the
`z` component of the first `size` entries of the gradient buffer. -/
def trackingQuality (upscale : ℚ) (size : Nat) (image_gradients : List float4) : ℚ :=
  let M := (image_gradients.take size).map fun g => g.z
  min (M.sum / (size : ℚ) * upscale) 1

/-- Method `TrackingWorker::updatePose`: the state afterwards, the flag
returned and the calls made. -/
def updatePose (E : Externals) (w : TrackingWorker) : TrackingWorker × Bool × List Call :=
  let s := updatePoseLoop E w w.pose_ w.iterations_
    { pose_ := w.pose_, accel_pose := w.pose_, image_gradients := w.image_gradients_cpu_ }
  ({ w with
      old_pose_ := w.pose_
      pose_ := s.pose_
      image_gradients_gpu_ := if w.iterations_ = 0 then w.image_gradients_gpu_ else s.image_gradients
      image_gradients_cpu_ := s.image_gradients
      tracking_quality_ := trackingQuality w.upscale_ w.events_cpu_.length s.image_gradients },
    true,
    Call.updatePose :: List.replicate w.iterations_ Call.getGradients)

/-! ## trackingworker.cpp: tracking -/

/-- The `for` loop of `track` that fills `events_cpu_`: slot `i` is written only
when `undistortPoint` returns true for `events[i]`. -/
def undistortLoop (undistorted : List Int) (camera_width camera_height : Int) :
    List Event → Nat → List float2 → Option (List float2)
  | [], _, buf => some buf
  | e :: es, i, buf =>
    match undistortPoint e undistorted camera_width camera_height with
    | none => none
    | some (true, e1) =>
      undistortLoop undistorted camera_width camera_height es (i + 1)
        (buf.set i ((e1.x_undist : ℚ), (e1.y_undist : ℚ)))
    | some (false, _) => undistortLoop undistorted camera_width camera_height es (i + 1) buf

/-- The call `cuda::updateMap(output_, occurences_, normalization_, events_gpu_,
pose_, old_pose_, width_, height_)` and its effect on the three map buffers. -/
def updateMapCall (E : Externals) (w : TrackingWorker) : TrackingWorker :=
  let r := E.updateMap w.gpu_constants w.output_ w.occurences_ w.normalization_ w.events_gpu_
    w.pose_ w.old_pose_ w.width_ w.height_
  { w with output_ := r.1, occurences_ := r.2.1, normalization_ := r.2.2 }

/-- State of `track` after the interface buffers are brought to the size of the
batch and filled: a buffer of another size is replaced by fresh memory. -/
def trackPrepare (E : Externals) (w : TrackingWorker) (events : List Event) :
    Option TrackingWorker :=
  let n := events.length
  let events_cpu := if w.events_cpu_.length ≠ n then (List.range n).map E.uninit_float2
    else w.events_cpu_
  let events_gpu := if w.events_gpu_.length ≠ n then (List.range n).map E.uninit_float2
    else w.events_gpu_
  let image_gradients_cpu := if w.image_gradients_cpu_.length ≠ n
    then (List.range n).map E.uninit_float4 else w.image_gradients_cpu_
  let image_gradients_gpu := if w.image_gradients_gpu_.length ≠ n
    then (List.range n).map E.uninit_float4 else w.image_gradients_gpu_
  match undistortLoop w.undistorted w.camera_parameters_.camera_width
      w.camera_parameters_.camera_height events 0 events_cpu with
  | none => none
  | some cpu =>
    some { w with
      events_cpu_ := cpu
      events_gpu_ := cpu
      image_gradients_cpu_ := image_gradients_cpu
      image_gradients_gpu_ := image_gradients_gpu }

/-- The branch of `track` on `image_id_ > 10`: pose estimation, pose log and
gated map update, or the unconditional map update. -/
def trackUpdate (E : Externals) (w : TrackingWorker) : TrackingWorker × List Call :=
  if w.image_id_ > 10 then
    let r := updatePose E w
    let w2 := r.1
    let successfull := r.2.1
    let calls := r.2.2 ++ [Call.poseLog]
    if successfull = true ∧ w2.tracking_quality_ > 1 / 4 then
      (updateMapCall E w2, calls ++ [Call.updateMap])
    else (w2, calls)
  else (updateMapCall E w, [Call.updateMap])

/-- The end of `track`: `image_id_++` and the preview every `image_skip_`
batches. -/
def trackFinish (E : Externals) (w : TrackingWorker) : TrackingWorker × List Call :=
  let w3 := { w with image_id_ := w.image_id_ + 1 }
  if w3.image_skip_ > 0 ∧ (w3.image_id_ : Int) % w3.image_skip_ = 0 then
    ({ w3 with
        output_color_ := E.createOutput w3.gpu_constants w3.output_
          (if w3.show_events_ then some w3.events_gpu_ else none) w3.pose_ w3.width_ w3.height_
          (if w3.show_camera_pose_ then w3.tracking_quality_ else -1) },
      [Call.update_info, Call.createOutput, Call.update_output])
  else (w3, [])

/-- Method `TrackingWorker::track`: the state afterwards and the calls made, in
order. -/
def track (E : Externals) (w : TrackingWorker) (events : List Event) :
    Option (TrackingWorker × List Call) :=
  match trackPrepare E w events with
  | none => none
  | some w1 =>
    let r := trackUpdate E w1
    let f := trackFinish E r.1
    some (f.1, r.2 ++ f.2)

/-! ## trackingworker.cpp: construction, event intake, run and stop -/

/-- Constructor `TrackingWorker::TrackingWorker`. The members it does not
assign (`running_`, `reset_pose_`, `packet_t_`) are given by the caller of
this function. -/
def TrackingWorker.new (E : Externals) (cam_parameters : Parameters) (device_number : Int)
    (upscale : ℚ) (running reset_pose : Bool) (packet_t : ℚ) : TrackingWorker :=
  getUndistortMap E
    { device_number_ := device_number
      width_ := cam_parameters.camera_width
      height_ := cam_parameters.camera_height
      output_ := ImageGpu.filled cam_parameters.output_size_x cam_parameters.output_size_y 0
      output_color_ :=
        { width := cam_parameters.output_size_x
          height := cam_parameters.output_size_y
          data := (List.range (cam_parameters.output_size_x * cam_parameters.output_size_y)).map
            E.uninit_uchar4 }
      occurences_ := ImageGpu.filled cam_parameters.output_size_x cam_parameters.output_size_y 0
      normalization_ := ImageGpu.filled cam_parameters.output_size_x cam_parameters.output_size_y 1
      events_per_image_ := 1500
      iterations_ := 10
      image_skip_ := 5
      camera_parameters_ := cam_parameters
      upscale_ := upscale
      tracking_quality_ := 1
      image_id_ := 0
      gpu_constants :=
        { K_cam := cam_parameters.K_cam
          K_caminv := cam_parameters.K_caminv
          px := cam_parameters.px
          py := cam_parameters.py
          upscale := upscale }
      events_cpu_ := []
      events_gpu_ := []
      image_gradients_cpu_ := []
      image_gradients_gpu_ := []
      pose_ := some 0
      old_pose_ := some 0
      R_sphere_ := !![0, 0, 1; 1, 0, 0; 0, 1, 0]
      lambda_ := 100
      lambda_a_ := 2
      lambda_b_ := 10
      alpha_ := 2 / 5
      show_camera_pose_ := true
      show_events_ := true
      events_ := []
      all_events_ := []
      running_ := running
      reset_pose_ := reset_pose
      packet_t_ := packet_t
      undistorted := [] }

/-- Method `TrackingWorker::addEvents`: the history is emptied when it holds
anything, then every event is pushed on the queue and on the history. -/
def addEvents (w : TrackingWorker) (events : List Event) : TrackingWorker :=
  let w0 := if w.all_events_.length > 0 then { w with all_events_ := [] } else w
  events.foldl
    (fun s e => { s with events_ := s.events_ ++ [e], all_events_ := s.all_events_ ++ [e] }) w0

/-- Method `TrackingWorker::clearEvents`. -/
def clearEvents (w : TrackingWorker) : TrackingWorker :=
  { w with events_ := [] }

/-- The block guarded by `reset_pose_` in `run` and in `stop`. -/
def resetPoseBlock (w : TrackingWorker) : TrackingWorker :=
  if w.reset_pose_ = true then
    { w with
      occurences_ := fill w.occurences_ 0
      normalization_ := fill w.normalization_ 1
      pose_ := some 0
      old_pose_ := some 0 }
  else w

/-- The statements of `TrackingWorker::run` before its `while` loop. -/
def runStart (w : TrackingWorker) : TrackingWorker :=
  let w1 := resetPoseBlock w
  { w1 with all_events_ := [], running_ := true, tracking_quality_ := 1, image_id_ := 0 }

/-- The drain loop of `run`: `front()` is pushed on `temp_events` and popped,
`k` times; `front()` of an empty queue has no defined result. The result is
`temp_events` and the queue left. -/
def drainLoop : Nat → List Event → List Event → Option (List Event × List Event)
  | 0, queue, temp_events => some (temp_events, queue)
  | _ + 1, [], _ => none
  | k + 1, e :: queue, temp_events => drainLoop k queue (temp_events ++ [e])

/-- The two locked sections of one pass of the `while` loop of `run`: the test
`events_.size() > events_per_image_` and, when it holds, the drain loop. The
result is `temp_events` (`none` when the pass goes to `msleep`) and the state
with the queue left. -/
def pollDrain (w : TrackingWorker) : Option (Option (List Event) × TrackingWorker) :=
  let image_available : Bool := decide (w.events_.length > w.events_per_image_)
  if image_available = true then
    match drainLoop w.events_per_image_ w.events_ [] with
    | none => none
    | some r => some (some r.1, { w with events_ := r.2 })
  else some (none, w)

/-- Value assigned to `packet_t_` in `run`; `front()`/`back()` of an empty vector
have no defined result. -/
def packetTime (temp_events : List Event) : Option ℚ :=
  match temp_events.head?, temp_events.getLast? with
  | some first, some last =>
    let t_packet_begin := first.t
    let t_packet_end := last.t
    some (t_packet_begin + (1 / 2) * (t_packet_end - t_packet_begin))
  | _, _ => none

/-- One pass of the `while` loop of `run`: the state afterwards and the calls
made (`msleep` leaves the state as it is). -/
def pollStep (E : Externals) (w : TrackingWorker) : Option (TrackingWorker × List Call) :=
  match pollDrain w with
  | none => none
  | some (none, w1) => some (w1, [])
  | some (some temp_events, w1) =>
    match packetTime temp_events with
    | none => none
    | some t => track E { w1 with packet_t_ := t } temp_events

/-- Method `TrackingWorker::stop`. -/
def stop (w : TrackingWorker) : TrackingWorker :=
  let w0 := clearEvents { w with running_ := false }
  let w1 := resetPoseBlock w0
  { w1 with all_events_ := [], tracking_quality_ := 1, image_id_ := 0 }

/-- Method `TrackingWorker::updateScale`. -/
def updateScale (w : TrackingWorker) (value : ℚ) : TrackingWorker :=
  { w with
    upscale_ := value
    gpu_constants :=
      { K_cam := w.camera_parameters_.K_cam
        K_caminv := w.camera_parameters_.K_caminv
        px := w.camera_parameters_.px
        py := w.camera_parameters_.py
        upscale := value } }

/-- Linearisation point `accel_pose` at which the last iteration of the loop of
`updatePose` samples the gradients (`iterations_` at least 1). -/
def finalAccelPose (E : Externals) (w : TrackingWorker) : Option Vec3 :=
  (updatePoseLoop E w w.pose_ (w.iterations_ - 1)
    { pose_ := w.pose_, accel_pose := w.pose_, image_gradients := w.image_gradients_cpu_ }).accel_pose

/-- Residuals `M` of the last iteration of `updatePose`: the `z` components the
gradient sampler returned in that iteration, one per event. -/
def finalResiduals (E : Externals) (w : TrackingWorker) : List ℚ :=
  (sampleGradients E w (finalAccelPose E w)).map fun g => g.z

/-- Tracking quality in the words of the specification: the mean of the
absolute residuals, times the upscale factor, clamped to `[0, 1]`. -/
def specTrackingQuality (upscale : ℚ) (residuals : List ℚ) : ℚ :=
  max 0 (min ((residuals.map fun r => |r|).sum / (residuals.length : ℚ) * upscale) 1)

/-- The three map buffers of a state: radiance, occurrences, normalization. -/
def mapBuffers (w : TrackingWorker) : ImageGpu ℚ × ImageGpu ℚ × ImageGpu ℚ :=
  (w.output_, w.occurences_, w.normalization_)

/-- The undistorted pixel `(u, v)` writes slot `s` of the table: its distorted
position passes the bounds test of `getUndistortMap` and its slot index
`(int)v_distorted * width + (int)u_distorted` is `s`. -/
def writesSlot (E : Externals) (cp : Parameters) (width height : Int) (u v : Int) (s : Nat) :
    Prop :=
  inSensor width height (distortPixel E cp u v) ∧
    idxDistort width (distortPixel E cp u v) = (s : Int)

/-- The matrix `J` that one iteration of the loop of `updatePose` fills at the
defined linearisation point `accel_pose`: one row per event. -/
def jacobian (E : Externals) (w : TrackingWorker) (accel_pose : Vec3) : List Vec3 :=
  List.zipWith (jacobianRow E w (rodrigues E accel_pose))
    ((spherePoints w).map (rodrigues E accel_pose).mulVec)
    (sampleGradients E w (some accel_pose))

/-- The matrix `JtJ + alpha * JtJ.diagonal().asDiagonal()` on which one
iteration of `updatePose` calls `inverse()`. -/
def normalMatrix (E : Externals) (w : TrackingWorker) (accel_pose : Vec3) : Matrix3fr :=
  ((jacobian E w accel_pose).map fun row => Matrix.vecMulVec row row).sum +
    (1 : ℚ) • Matrix.diagonal (fun i =>
      ((jacobian E w accel_pose).map fun row => Matrix.vecMulVec row row).sum i i)

/-- The vector `J.transpose() * -M - alpha * (accel_pose - init_pose)` that one
iteration of `updatePose` multiplies by that inverse. -/
def normalVector (E : Externals) (w : TrackingWorker) (init_pose accel_pose : Vec3) : Vec3 :=
  (List.zipWith (fun (row : Vec3) (g : float4) => (-g.z) • row) (jacobian E w accel_pose)
    (sampleGradients E w (some accel_pose))).sum - (1 : ℚ) • (accel_pose - init_pose)

/-! ## Concrete inputs -/

/-- Externals with simple total functions: the gradient sampler returns zero
gradient and the residual `residual` for every event, the map update adds one
to every pixel of the three buffers. -/
def exampleExternals (residual : ℚ) : Externals :=
  { sqrt := fun x => x
    cos := fun _ => 1
    sin := fun _ => 0
    pow := fun x _ => x
    M_PI := 3
    inverse := fun A => A
    getGradients := fun _ _ _ _ _ => { x := 0, y := 0, z := residual, w := 0 }
    updateMap := fun _ output occurences normalization _ _ _ _ _ =>
      ({ output with data := output.data.map (· + 1) },
       { occurences with data := occurences.data.map (· + 1) },
       { normalization with data := normalization.data.map (· + 1) })
    createOutput := fun _ output _ _ _ _ _ =>
      { width := output.width, height := output.height, data := output.data.map fun _ => (0, 0, 0, 0) }
    uninit_float2 := fun _ => (7, 7)
    uninit_float4 := fun _ => { x := 7, y := 7, z := 7, w := 7 }
    uninit_uchar4 := fun _ => (0, 0, 0, 0) }

/-- A 2x2 sensor with identity intrinsics and no distortion, 2x2 panorama. -/
def exampleParameters : Parameters :=
  { K_cam := 1
    K_caminv := 1
    px := 1
    py := 1
    distort := { k1 := 0, k2 := 0, p1 := 0, p2 := 0 }
    camera_width := 2
    camera_height := 2
    output_size_x := 2
    output_size_y := 2
    pose_output_dir := "" }

/-- A worker as the constructor leaves it, with upscale 1 and `reset_pose_` set. -/
def exampleWorker : TrackingWorker :=
  TrackingWorker.new (exampleExternals 0) exampleParameters 0 1 false true 0

/-- An event at pixel `(x, y)` of the sensor. -/
def exampleEvent (x y : Int) : Event :=
  { t := 0, x := x, y := y, polarity := 1, x_undist := 0, y_undist := 0 }

/-- A worker whose queue holds exactly `events_per_image_` = 1500 events. -/
def exactBatchWorker : TrackingWorker :=
  { exampleWorker with events_ := List.replicate 1500 (exampleEvent 0 0) }

/-- The example worker when eleven batches have been tracked (`image_id_` = 11). -/
def lateWorker : TrackingWorker :=
  { exampleWorker with image_id_ := 11 }

/-- The example worker holding a one-event batch in its interface buffers, as
`track` hands it to `updatePose`. -/
def batchWorker : TrackingWorker :=
  { exampleWorker with
    events_cpu_ := [(0, 0)]
    events_gpu_ := [(0, 0)]
    image_gradients_cpu_ := [{ x := 7, y := 7, z := 7, w := 7 }]
    image_gradients_gpu_ := [{ x := 7, y := 7, z := 7, w := 7 }] }

/-- A 2x1 sensor with identity intrinsics and radial distortion `k1` = 1: the
pixel (1, 0) is distorted to `u` = 2, outside the sensor, so that no pixel
maps to slot 1. (On the radii 0 and 1 that occur, the square root taken by
`exampleExternals` is exact.) -/
def distortedParameters : Parameters :=
  { exampleParameters with
    distort := { k1 := 1, k2 := 0, p1 := 0, p2 := 0 }
    camera_width := 2
    camera_height := 1 }

/-- The worker the constructor builds for `distortedParameters`; slot 1 of its
undistortion table holds the sentinel -1. -/
def sentinelWorker : TrackingWorker :=
  TrackingWorker.new (exampleExternals 0) distortedParameters 0 1 false true 0

/-- The example worker after one map update: every pixel of its three map
buffers was raised by one; `reset_pose_` is set. -/
def mappedWorker : TrackingWorker :=
  updateMapCall (exampleExternals 0) exampleWorker

/-- The example worker holding a batch of 1500 synthetic events in its interface
buffers, as `track` hands it to `updatePose`; `pose_` is the zero vector and
`iterations_` is 10. -/
def syntheticWorker : TrackingWorker :=
  { exampleWorker with
    events_cpu_ := List.replicate 1500 (0, 0)
    events_gpu_ := List.replicate 1500 (0, 0)
    image_gradients_cpu_ := List.replicate 1500 { x := 7, y := 7, z := 7, w := 7 }
    image_gradients_gpu_ := List.replicate 1500 { x := 7, y := 7, z := 7, w := 7 } }

/-! # Properties -/

/-! ## Event queue -/

theorem addEvents_fold_events (events : List Event) (w0 : TrackingWorker) :
    (events.foldl (fun s e =>
      { s with events_ := s.events_ ++ [e], all_events_ := s.all_events_ ++ [e] }) w0).events_
      = w0.events_ ++ events := by
  induction events generalizing w0 with
  | nil => simp
  | cons e es ih => rw [List.foldl_cons, ih]; simp

theorem addEvents_events (w : TrackingWorker) (events : List Event) :
    (addEvents w events).events_ = w.events_ ++ events := by
  unfold addEvents
  rw [addEvents_fold_events]
  split <;> rfl

theorem addEvents_foldl_events (pushes : List (List Event)) (w : TrackingWorker) :
    (pushes.foldl addEvents w).events_ = w.events_ ++ pushes.flatten := by
  induction pushes generalizing w with
  | nil => simp
  | cons p ps ih => rw [List.foldl_cons, ih, addEvents_events]; simp

theorem drainLoop_eq (k : Nat) (queue temp_events : List Event) (h : k ≤ queue.length) :
    drainLoop k queue temp_events = some (temp_events ++ queue.take k, queue.drop k) := by
  induction k generalizing queue temp_events with
  | zero => simp [drainLoop]
  | succ k ih =>
    cases queue with
    | nil => simp at h
    | cons e q =>
      simp only [List.length_cons, Nat.add_le_add_iff_right] at h
      simp [drainLoop, ih q (temp_events ++ [e]) h]

theorem pollDrain_idle (w : TrackingWorker) (h : w.events_.length ≤ w.events_per_image_) :
    pollDrain w = some (none, w) := by
  simp [pollDrain, Nat.not_lt.mpr h]

theorem pollDrain_batch (w : TrackingWorker) (h : w.events_per_image_ < w.events_.length) :
    pollDrain w = some (some (w.events_.take w.events_per_image_),
      { w with events_ := w.events_.drop w.events_per_image_ }) := by
  simp [pollDrain, h, drainLoop_eq _ _ _ (Nat.le_of_lt h)]

theorem pollDrain_batch_queue (w : TrackingWorker) (h : w.events_per_image_ < w.events_.length) :
    ∃ w1, pollDrain w = some (some (w.events_.take w.events_per_image_), w1) ∧
      w1.events_ = w.events_.drop w.events_per_image_ :=
  ⟨_, pollDrain_batch w h, rfl⟩

/-- C1: one pass of the polling loop of `run` either drains nothing and leaves
the state (and so the queue) as it is, or drains exactly the first
`events_per_image_` events of the queue, in arrival order, and leaves the
remaining events in the queue in their order; the pass that drains nothing
makes no call, the pass that drains hands exactly these events to `track`;
and after any sequence of `addEvents` calls the queue is the old queue
followed by the concatenation of the pushed vectors, so that two ways of
splitting the same events into calls give the same queue. -/
theorem poll_drain_fifo (E : Externals) (w : TrackingWorker) :
    (∃ r, pollDrain w = some r ∧
      ((r.1 = none ∧ r.2 = w) ∨
       (r.1 = some (w.events_.take w.events_per_image_) ∧
        (w.events_.take w.events_per_image_).length = w.events_per_image_ ∧
        r.2.events_ = w.events_.drop w.events_per_image_ ∧
        w.events_.take w.events_per_image_ ++ r.2.events_ = w.events_))) ∧
    (w.events_.length ≤ w.events_per_image_ → pollStep E w = some (w, [])) ∧
    (w.events_per_image_ < w.events_.length →
      pollStep E w = (packetTime (w.events_.take w.events_per_image_)).bind fun t =>
        track E { w with events_ := w.events_.drop w.events_per_image_, packet_t_ := t }
          (w.events_.take w.events_per_image_)) ∧
    (∀ pushes : List (List Event),
      (pushes.foldl addEvents w).events_ = w.events_ ++ pushes.flatten) ∧
    (∀ pushes pushes' : List (List Event), pushes.flatten = pushes'.flatten →
      (pushes.foldl addEvents w).events_ = (pushes'.foldl addEvents w).events_) := by
  refine ⟨?_, ?_, ?_, ?_, ?_⟩
  · rcases Nat.lt_or_ge w.events_per_image_ w.events_.length with h | h
    · refine ⟨_, pollDrain_batch w h, Or.inr ⟨rfl, ?_, rfl, ?_⟩⟩
      · simp [List.length_take, Nat.le_of_lt h]
      · simp
    · exact ⟨_, pollDrain_idle w h, Or.inl ⟨rfl, rfl⟩⟩
  · intro h
    simp [pollStep, pollDrain_idle w h]
  · intro h
    simp only [pollStep, pollDrain_batch w h]
    cases packetTime (List.take w.events_per_image_ w.events_) <;> rfl
  · intro pushes
    exact addEvents_foldl_events pushes w
  · intro pushes pushes' h
    rw [addEvents_foldl_events, addEvents_foldl_events, h]

/-- C2: with exactly `events_per_image_` = 1500 events queued, one pass of the
polling loop drains nothing: the test is `events_.size() > events_per_image_`,
so the pass goes to `msleep` and the state is as before; one more event in the
queue and the pass drains the first 1500. -/
theorem poll_exact_batch_not_drained :
    exactBatchWorker.events_.length = exactBatchWorker.events_per_image_ ∧
    pollDrain exactBatchWorker = some (none, exactBatchWorker) ∧
    pollStep (exampleExternals 0) exactBatchWorker = some (exactBatchWorker, []) ∧
    (∃ w1, pollDrain (addEvents exactBatchWorker [exampleEvent 1 1]) =
        some (some (List.replicate 1500 (exampleEvent 0 0)), w1) ∧
      w1.events_ = [exampleEvent 1 1]) := by
  have hq0 : exactBatchWorker.events_ = List.replicate 1500 (exampleEvent 0 0) := rfl
  have hn0 : exactBatchWorker.events_per_image_ = 1500 := rfl
  have hlen : exactBatchWorker.events_.length = exactBatchWorker.events_per_image_ := by
    rw [hq0, hn0, List.length_replicate]
  have hidle := pollDrain_idle exactBatchWorker (Nat.le_of_eq hlen)
  refine ⟨hlen, hidle, ?_, ?_⟩
  · simp only [pollStep, hidle]
  · have hq : (addEvents exactBatchWorker [exampleEvent 1 1]).events_ =
        List.replicate 1500 (exampleEvent 0 0) ++ [exampleEvent 1 1] := by
      rw [addEvents_events, hq0]
    have hn : (addEvents exactBatchWorker [exampleEvent 1 1]).events_per_image_ = 1500 := rfl
    have hlt : (addEvents exactBatchWorker [exampleEvent 1 1]).events_per_image_ <
        (addEvents exactBatchWorker [exampleEvent 1 1]).events_.length := by
      rw [hq, hn, List.length_append, List.length_replicate]; exact Nat.lt_succ_self _
    have hlr : (List.replicate 1500 (exampleEvent 0 0)).length = 1500 := List.length_replicate _ _
    obtain ⟨w1, h1, h2⟩ := pollDrain_batch_queue _ hlt
    have ht : (addEvents exactBatchWorker [exampleEvent 1 1]).events_.take
        (addEvents exactBatchWorker [exampleEvent 1 1]).events_per_image_ =
        List.replicate 1500 (exampleEvent 0 0) := by
      rw [hq, hn, List.take_left' hlr]
    have hd : (addEvents exactBatchWorker [exampleEvent 1 1]).events_.drop
        (addEvents exactBatchWorker [exampleEvent 1 1]).events_per_image_ =
        [exampleEvent 1 1] := by
      rw [hq, hn, List.drop_left' hlr]
    rw [ht] at h1
    rw [hd] at h2
    exact ⟨w1, h1, h2⟩

/-! ## Tracking: one call of `track` -/

theorem undistortLoop_some (tbl : List Int) (cw ch : Int) (events : List Event) (i : Nat)
    (buf : List float2) (h : ∀ e ∈ events, undistortPoint e tbl cw ch ≠ none) :
    ∃ out, undistortLoop tbl cw ch events i buf = some out ∧ out.length = buf.length := by
  induction events generalizing i buf with
  | nil => exact ⟨buf, rfl, rfl⟩
  | cons e es ih =>
    have he := h e (List.mem_cons_self e es)
    have hes : ∀ x ∈ es, undistortPoint x tbl cw ch ≠ none :=
      fun x hx => h x (List.mem_cons_of_mem e hx)
    cases hres : undistortPoint e tbl cw ch with
    | none => exact absurd hres he
    | some r =>
      obtain ⟨b, e1⟩ := r
      cases b with
      | true =>
        obtain ⟨out, ho, hl⟩ := ih (i + 1) (buf.set i ((e1.x_undist : ℚ), (e1.y_undist : ℚ))) hes
        exact ⟨out, by simp [undistortLoop, hres, ho], by simp [hl]⟩
      | false =>
        obtain ⟨out, ho, hl⟩ := ih (i + 1) buf hes
        exact ⟨out, by simp [undistortLoop, hres, ho], hl⟩

theorem trackPrepare_eq (E : Externals) (w w1 : TrackingWorker) (events : List Event)
    (h : trackPrepare E w events = some w1) :
    ∃ cpu gc gg, w1 = { w with
      events_cpu_ := cpu, events_gpu_ := cpu,
      image_gradients_cpu_ := gc, image_gradients_gpu_ := gg } := by
  unfold trackPrepare at h
  simp only at h
  split at h
  · exact absurd h (by simp)
  · rename_i cpu _
    exact ⟨cpu, _, _, (Option.some.inj h).symm⟩

theorem trackPrepare_some (E : Externals) (w : TrackingWorker) (events : List Event)
    (h : ∀ e ∈ events, undistortPoint e w.undistorted w.camera_parameters_.camera_width
      w.camera_parameters_.camera_height ≠ none) :
    ∃ w1, trackPrepare E w events = some w1 ∧ w1.events_cpu_.length = events.length ∧
      w1.events_gpu_ = w1.events_cpu_ := by
  obtain ⟨out, ho, hl⟩ := undistortLoop_some w.undistorted w.camera_parameters_.camera_width
    w.camera_parameters_.camera_height events 0
    (if w.events_cpu_.length ≠ events.length then (List.range events.length).map E.uninit_float2
      else w.events_cpu_) h
  have hlen : out.length = events.length := by
    rw [hl]
    split
    · simp
    · rename_i hne
      exact not_not.mp hne
  have hp : trackPrepare E w events = some { w with
      events_cpu_ := out
      events_gpu_ := out
      image_gradients_cpu_ := if w.image_gradients_cpu_.length ≠ events.length
        then (List.range events.length).map E.uninit_float4 else w.image_gradients_cpu_
      image_gradients_gpu_ := if w.image_gradients_gpu_.length ≠ events.length
        then (List.range events.length).map E.uninit_float4 else w.image_gradients_gpu_ } := by
    simp only [trackPrepare, ho]
  exact ⟨_, hp, hlen, rfl⟩

theorem trackUpdate_early (E : Externals) (w : TrackingWorker) (h : w.image_id_ ≤ 10) :
    trackUpdate E w = (updateMapCall E w, [Call.updateMap]) := by
  simp [trackUpdate, Nat.not_lt.mpr h]

theorem trackUpdate_gated (E : Externals) (w : TrackingWorker) (h : 10 < w.image_id_) :
    trackUpdate E w =
      if (updatePose E w).1.tracking_quality_ > 1 / 4 then
        (updateMapCall E (updatePose E w).1,
          (Call.updatePose :: List.replicate w.iterations_ Call.getGradients) ++
            [Call.poseLog] ++ [Call.updateMap])
      else
        ((updatePose E w).1,
          (Call.updatePose :: List.replicate w.iterations_ Call.getGradients) ++
            [Call.poseLog]) := by
  simp [trackUpdate, h, updatePose]

theorem trackFinish_calls (E : Externals) (w : TrackingWorker) :
    (trackFinish E w).2 = [] ∨
      (trackFinish E w).2 = [Call.update_info, Call.createOutput, Call.update_output] := by
  unfold trackFinish
  simp only
  split
  · exact Or.inr rfl
  · exact Or.inl rfl

theorem trackFinish_fields (E : Externals) (w : TrackingWorker) :
    (trackFinish E w).1.output_ = w.output_ ∧
    (trackFinish E w).1.occurences_ = w.occurences_ ∧
    (trackFinish E w).1.normalization_ = w.normalization_ ∧
    (trackFinish E w).1.tracking_quality_ = w.tracking_quality_ ∧
    (trackFinish E w).1.image_id_ = w.image_id_ + 1 ∧
    (trackFinish E w).1.undistorted = w.undistorted ∧
    (trackFinish E w).1.camera_parameters_ = w.camera_parameters_ := by
  unfold trackFinish
  simp only
  split <;> exact ⟨rfl, rfl, rfl, rfl, rfl, rfl, rfl⟩

theorem track_eq (E : Externals) (w w1 : TrackingWorker) (events : List Event)
    (h : trackPrepare E w events = some w1) :
    track E w events =
      some ((trackFinish E (trackUpdate E w1).1).1,
        (trackUpdate E w1).2 ++ (trackFinish E (trackUpdate E w1).1).2) := by
  simp only [track, h]

theorem track_step (E : Externals) (w w1 : TrackingWorker) (events : List Event)
    (hp : trackPrepare E w events = some w1) :
    ∃ w2 calls, track E w events = some (w2, calls) ∧
      w2.image_id_ = w.image_id_ + 1 ∧ w2.undistorted = w.undistorted ∧
      w2.camera_parameters_ = w.camera_parameters_ ∧
      (w.image_id_ ≤ 10 →
        calls.count Call.updateMap = 1 ∧ Call.updatePose ∉ calls ∧ Call.getGradients ∉ calls ∧
        mapBuffers w2 = E.updateMap w.gpu_constants w.output_ w.occurences_ w.normalization_
          w1.events_gpu_ w.pose_ w.old_pose_ w.width_ w.height_ ∧
        w2.tracking_quality_ = w.tracking_quality_) ∧
      (10 < w.image_id_ →
        Call.updatePose ∈ calls ∧
        w2.tracking_quality_ = (updatePose E w1).1.tracking_quality_ ∧
        (w2.tracking_quality_ ≤ 1 / 4 →
          Call.updateMap ∉ calls ∧ mapBuffers w2 = mapBuffers w) ∧
        (1 / 4 < w2.tracking_quality_ →
          calls.count Call.updateMap = 1 ∧
          mapBuffers w2 = mapBuffers (updateMapCall E (updatePose E w1).1))) := by
  obtain ⟨cpu, gc, gg, hw1⟩ := trackPrepare_eq E w w1 events hp
  have hid : w1.image_id_ = w.image_id_ := by rw [hw1]
  obtain ⟨fo, fc, fn, fq, fi, fu, fp⟩ := trackFinish_fields E (trackUpdate E w1).1
  refine ⟨_, _, track_eq E w w1 events hp, ?_, ?_, ?_, ?_, ?_⟩
  · rw [fi]
    rcases Nat.lt_or_ge 10 w1.image_id_ with h | h
    · rw [trackUpdate_gated E w1 h]
      split <;> simp [updateMapCall, updatePose, hid]
    · rw [trackUpdate_early E w1 h]
      simp [updateMapCall, hid]
  · rw [fu]
    rcases Nat.lt_or_ge 10 w1.image_id_ with h | h
    · rw [trackUpdate_gated E w1 h]
      split <;> simp [updateMapCall, updatePose, hw1]
    · rw [trackUpdate_early E w1 h]
      simp [updateMapCall, hw1]
  · rw [fp]
    rcases Nat.lt_or_ge 10 w1.image_id_ with h | h
    · rw [trackUpdate_gated E w1 h]
      split <;> simp [updateMapCall, updatePose, hw1]
    · rw [trackUpdate_early E w1 h]
      simp [updateMapCall, hw1]
  · intro h
    have h1 : w1.image_id_ ≤ 10 := hid ▸ h
    simp only [mapBuffers, fo, fc, fn, fq]
    rw [trackUpdate_early E w1 h1]
    refine ⟨?_, ?_, ?_, ?_, ?_⟩
    · rcases trackFinish_calls E (updateMapCall E w1) with hc | hc <;> rw [hc] <;> simp
    · rcases trackFinish_calls E (updateMapCall E w1) with hc | hc <;> rw [hc] <;> simp
    · rcases trackFinish_calls E (updateMapCall E w1) with hc | hc <;> rw [hc] <;> simp
    · simp [updateMapCall, hw1]
    · simp [updateMapCall, hw1]
  · intro h
    have h1 : 10 < w1.image_id_ := hid ▸ h
    simp only [mapBuffers, fo, fc, fn, fq]
    rw [trackUpdate_gated E w1 h1]
    by_cases hq : (updatePose E w1).1.tracking_quality_ > 1 / 4
    · simp only [if_pos hq]
      have hq2 : (updateMapCall E (updatePose E w1).1).tracking_quality_ =
          (updatePose E w1).1.tracking_quality_ := rfl
      refine ⟨by simp, hq2, ?_, ?_⟩
      · intro hle
        rw [hq2] at hle
        exact absurd hq (not_lt.mpr hle)
      · intro _
        refine ⟨?_, trivial⟩
        rcases trackFinish_calls E (updateMapCall E (updatePose E w1).1) with hc | hc <;>
          rw [hc] <;> simp [List.count_replicate]
    · simp only [if_neg hq]
      refine ⟨by simp, trivial, ?_, ?_⟩
      · intro _
        refine ⟨?_, ?_⟩
        · rcases trackFinish_calls E (updatePose E w1).1 with hc | hc <;> rw [hc] <;> simp
        · rw [hw1]; rfl
      · intro hlt
        exact absurd hlt hq

/-! ## Pose estimation: helper facts -/

theorem updatePoseLoop_last (E : Externals) (w : TrackingWorker) (init : Option Vec3) (k : Nat)
    (s : PoseIter) :
    updatePoseLoop E w init (k + 1) s =
      updatePoseIteration E w init (updatePoseLoop E w init k s) := by
  induction k generalizing s with
  | zero => rfl
  | succ k ih =>
    show updatePoseLoop E w init (k + 1) (updatePoseIteration E w init s) = _
    rw [ih]
    rfl

theorem sampleGradients_length (E : Externals) (w : TrackingWorker) (a : Option Vec3) :
    (sampleGradients E w a).length = w.events_cpu_.length := by
  simp [sampleGradients]

theorem updatePose_gradients (E : Externals) (w : TrackingWorker) (h : 0 < w.iterations_) :
    (updatePose E w).1.image_gradients_cpu_ = sampleGradients E w (finalAccelPose E w) := by
  obtain ⟨k, hk⟩ : ∃ k, w.iterations_ = k + 1 := ⟨w.iterations_ - 1, by omega⟩
  show (updatePoseLoop E w w.pose_ w.iterations_ _).image_gradients = _
  unfold finalAccelPose
  rw [hk, updatePoseLoop_last]
  rfl

theorem updatePose_tracking_quality (E : Externals) (w : TrackingWorker)
    (h : 0 < w.iterations_) :
    (updatePose E w).1.tracking_quality_ =
      min ((finalResiduals E w).sum / (w.events_cpu_.length : ℚ) * w.upscale_) 1 := by
  have hg := updatePose_gradients E w h
  show trackingQuality w.upscale_ w.events_cpu_.length
    (updatePose E w).1.image_gradients_cpu_ = _
  rw [hg]
  unfold trackingQuality finalResiduals
  simp only
  rw [← sampleGradients_length E w (finalAccelPose E w), List.take_length]

/-! ## The concrete inputs -/

theorem exampleTable (r : ℚ) :
    undistortTable (exampleExternals r) exampleParameters 2 2 = [0, 1, 2, 3] := by
  simp [undistortTable, rasterPixels, undistortMapBody, distortPixel, idxDistort, inSensor,
    truncInt, exampleExternals, exampleParameters, List.range, List.range.loop, List.flatMap,
    List.replicate]

theorem exampleWorker_undistorted : exampleWorker.undistorted = [0, 1, 2, 3] := exampleTable 0

theorem exampleWorker_lookup (w : TrackingWorker) (hu : w.undistorted = [0, 1, 2, 3])
    (hc : w.camera_parameters_ = exampleParameters) :
    ∀ e ∈ [exampleEvent 0 0], undistortPoint e w.undistorted w.camera_parameters_.camera_width
      w.camera_parameters_.camera_height ≠ none := by
  intro e he
  rw [List.mem_singleton] at he
  subst he
  rw [hu, hc]
  simp [undistortPoint, exampleEvent, exampleParameters]

theorem exampleExternals_residuals (r : ℚ) (w : TrackingWorker) :
    finalResiduals (exampleExternals r) w = List.replicate w.events_cpu_.length r := by
  unfold finalResiduals sampleGradients
  rw [List.map_map]
  apply List.ext_getElem
  · simp
  · intro i h1 h2
    simp [exampleExternals]

/-! ## Map-update gating -/

/-- C3: for a batch whose events all have a defined lookup in the undistortion
table, `track` returns, and: if `image_id_ <= 10` on entry, `cuda::updateMap` is
invoked exactly once, on the map buffers as they were on entry, the pose
estimator and the gradient sampler are not invoked and the tracking quality is
as before; if `image_id_ > 10` on entry, the pose estimator runs and, when the
tracking quality it computes for this batch is `<= 0.25`, `updateMap` is not
invoked and the three map buffers are as they were before the call. -/
theorem track_map_gating (E : Externals) (w : TrackingWorker) (events : List Event)
    (h : ∀ e ∈ events, undistortPoint e w.undistorted w.camera_parameters_.camera_width
      w.camera_parameters_.camera_height ≠ none) :
    ∃ w1 w2 calls, trackPrepare E w events = some w1 ∧ track E w events = some (w2, calls) ∧
      (w.image_id_ ≤ 10 →
        calls.count Call.updateMap = 1 ∧ Call.updatePose ∉ calls ∧ Call.getGradients ∉ calls ∧
        mapBuffers w2 = E.updateMap w.gpu_constants w.output_ w.occurences_ w.normalization_
          w1.events_gpu_ w.pose_ w.old_pose_ w.width_ w.height_ ∧
        w2.tracking_quality_ = w.tracking_quality_) ∧
      (10 < w.image_id_ →
        Call.updatePose ∈ calls ∧
        w2.tracking_quality_ = (updatePose E w1).1.tracking_quality_ ∧
        ((updatePose E w1).1.tracking_quality_ ≤ 1 / 4 →
          Call.updateMap ∉ calls ∧ mapBuffers w2 = mapBuffers w)) := by
  obtain ⟨w1, hp, _, _⟩ := trackPrepare_some E w events h
  obtain ⟨w2, calls, ht, _, _, _, hearly, hlate⟩ := track_step E w w1 events hp
  refine ⟨w1, w2, calls, hp, ht, hearly, ?_⟩
  intro h10
  obtain ⟨hc, hq, hskip, _⟩ := hlate h10
  exact ⟨hc, hq, fun hle => hskip (hq ▸ hle)⟩

/-- Witness of C3: the example worker at `image_id_` = 0 updates the map once
without a pose estimate; at `image_id_` = 11, with a sampler returning residual
0 (tracking quality 0), `updateMap` is not invoked and the map is unchanged. -/
theorem track_map_gating_witness :
    (∃ w2 calls, track (exampleExternals 0) exampleWorker [exampleEvent 0 0] = some (w2, calls) ∧
      calls.count Call.updateMap = 1 ∧ Call.updatePose ∉ calls) ∧
    (∃ w2 calls, track (exampleExternals 0) lateWorker [exampleEvent 0 0] = some (w2, calls) ∧
      Call.updatePose ∈ calls ∧ Call.updateMap ∉ calls ∧ mapBuffers w2 = mapBuffers lateWorker) := by
  constructor
  · obtain ⟨w1, w2, calls, _, ht, hearly, _⟩ :=
      track_map_gating (exampleExternals 0) exampleWorker [exampleEvent 0 0]
        (exampleWorker_lookup exampleWorker exampleWorker_undistorted rfl)
    have h0 : exampleWorker.image_id_ ≤ 10 := Nat.zero_le 10
    exact ⟨w2, calls, ht, (hearly h0).1, (hearly h0).2.1⟩
  · obtain ⟨w1, w2, calls, hp, ht, _, hlate⟩ :=
      track_map_gating (exampleExternals 0) lateWorker [exampleEvent 0 0]
        (exampleWorker_lookup lateWorker exampleWorker_undistorted rfl)
    have h11 : 10 < lateWorker.image_id_ := Nat.lt_succ_self 10
    obtain ⟨hc, _, hskip⟩ := hlate h11
    obtain ⟨cpu, gc, gg, hw1⟩ := trackPrepare_eq _ _ _ _ hp
    have hit : 0 < w1.iterations_ := by rw [hw1]; exact Nat.succ_pos 9
    have hq : (updatePose (exampleExternals 0) w1).1.tracking_quality_ ≤ 1 / 4 := by
      rw [updatePose_tracking_quality _ _ hit, exampleExternals_residuals]
      have hz : (List.replicate w1.events_cpu_.length (0 : ℚ)).sum = 0 := by simp
      rw [hz]
      norm_num
    exact ⟨w2, calls, ht, hc, (hskip hq).1, (hskip hq).2⟩

theorem sum_abs_of_nonneg (l : List ℚ) (h : ∀ r ∈ l, 0 ≤ r) :
    (l.map fun r => |r|).sum = l.sum := by
  induction l with
  | nil => rfl
  | cons a t ih =>
    have ha : |a| = a := abs_of_nonneg (h a (List.mem_cons_self a t))
    simp only [List.map_cons, List.sum_cons, ha,
      ih (fun r hr => h r (List.mem_cons_of_mem a hr))]

theorem finalResiduals_length (E : Externals) (w : TrackingWorker) :
    (finalResiduals E w).length = w.events_cpu_.length := by
  simp [finalResiduals, sampleGradients]

/-- C5 (amended): for every non-empty batch and at least one iteration, the
tracking quality set by `updatePose` is the mean of the residuals of the final
iteration (signed, not absolute) times the upscale factor, clamped from above
at 1 and not clamped from below; so it is `<= 1`, and when every residual of
the final iteration is `>= 0` and the upscale factor is `>= 0` it equals the
mean absolute residual times upscale clamped to `[0, 1]` and is `>= 0`. -/
theorem tracking_quality_formula (E : Externals) (w : TrackingWorker)
    (hit : 0 < w.iterations_) (hne : w.events_cpu_ ≠ []) :
    (finalResiduals E w).length = w.events_cpu_.length ∧
    (updatePose E w).1.tracking_quality_ =
      min ((finalResiduals E w).sum / ((finalResiduals E w).length : ℚ) * w.upscale_) 1 ∧
    (updatePose E w).1.tracking_quality_ ≤ 1 ∧
    ((∀ r ∈ finalResiduals E w, 0 ≤ r) → 0 ≤ w.upscale_ →
      (updatePose E w).1.tracking_quality_ =
        specTrackingQuality w.upscale_ (finalResiduals E w) ∧
      0 ≤ (updatePose E w).1.tracking_quality_) := by
  have hq := updatePose_tracking_quality E w hit
  have hl := finalResiduals_length E w
  refine ⟨hl, by rw [hq, hl], by rw [hq]; exact min_le_right _ _, ?_⟩
  intro hr hu
  have hsum : 0 ≤ (finalResiduals E w).sum := List.sum_nonneg hr
  have hx : 0 ≤ (finalResiduals E w).sum / (w.events_cpu_.length : ℚ) * w.upscale_ :=
    mul_nonneg (div_nonneg hsum (Nat.cast_nonneg _)) hu
  have hm : 0 ≤ min ((finalResiduals E w).sum / (w.events_cpu_.length : ℚ) * w.upscale_) 1 :=
    le_min hx zero_le_one
  refine ⟨?_, by rw [hq]; exact hm⟩
  rw [hq]
  unfold specTrackingQuality
  rw [sum_abs_of_nonneg _ hr, hl, max_eq_right hm]

/-- Witness of C5 (amended): the one-event batch with a sampler returning the
residual 1/2; the tracking quality is 1/2. -/
theorem tracking_quality_formula_witness :
    0 < batchWorker.iterations_ ∧ batchWorker.events_cpu_ ≠ [] ∧
    (updatePose (exampleExternals (1 / 2)) batchWorker).1.tracking_quality_ = 1 / 2 := by
  have hit : 0 < batchWorker.iterations_ := Nat.succ_pos 9
  have hne : batchWorker.events_cpu_ ≠ [] := List.cons_ne_nil _ _
  refine ⟨hit, hne, ?_⟩
  rw [(tracking_quality_formula (exampleExternals (1 / 2)) batchWorker hit hne).2.1,
    exampleExternals_residuals]
  have hu : batchWorker.upscale_ = 1 := rfl
  have hl : batchWorker.events_cpu_.length = 1 := rfl
  rw [hu, hl]
  norm_num

/-- Counterexample to C5: a one-event batch, upscale factor 1 and a sampler
returning the residual -1 in every iteration: `updatePose` sets the tracking
quality to -1, outside `[0, 1]`, while the mean absolute residual times upscale
clamped to `[0, 1]` is 1. -/
theorem tracking_quality_negative :
    0 < batchWorker.upscale_ ∧
    finalResiduals (exampleExternals (-1)) batchWorker = [-1] ∧
    (updatePose (exampleExternals (-1)) batchWorker).1.tracking_quality_ = -1 ∧
    specTrackingQuality batchWorker.upscale_ (finalResiduals (exampleExternals (-1)) batchWorker) = 1 ∧
    ¬ (0 ≤ (updatePose (exampleExternals (-1)) batchWorker).1.tracking_quality_) := by
  have hu : batchWorker.upscale_ = 1 := rfl
  have hl : batchWorker.events_cpu_.length = 1 := rfl
  have hr : finalResiduals (exampleExternals (-1)) batchWorker = [-1] := by
    rw [exampleExternals_residuals, hl]; rfl
  have hq : (updatePose (exampleExternals (-1)) batchWorker).1.tracking_quality_ = -1 := by
    rw [updatePose_tracking_quality _ _ (Nat.succ_pos 9), hr, hu, hl]
    norm_num
  refine ⟨by rw [hu]; exact zero_lt_one, hr, hq, ?_, ?_⟩
  · rw [hr, hu]
    unfold specTrackingQuality
    norm_num
  · rw [hq]
    norm_num

/-! ## Undistortion of a batch -/

theorem undistortLoop_length (tbl : List Int) (cw ch : Int) (events : List Event) (i : Nat)
    (buf out : List float2) (h : undistortLoop tbl cw ch events i buf = some out) :
    out.length = buf.length := by
  induction events generalizing i buf with
  | nil =>
    simp only [undistortLoop, Option.some.injEq] at h
    rw [← h]
  | cons e es ih =>
    unfold undistortLoop at h
    split at h
    · exact absurd h (by simp)
    · rw [ih _ _ h, List.length_set]
    · exact ih _ _ h

theorem trackPrepare_length (E : Externals) (w w1 : TrackingWorker) (events : List Event)
    (h : trackPrepare E w events = some w1) :
    w1.events_cpu_.length = events.length ∧ w1.events_gpu_ = w1.events_cpu_ := by
  unfold trackPrepare at h
  simp only at h
  split at h
  · exact absurd h (by simp)
  · rename_i cpu hloop
    have hl := undistortLoop_length _ _ _ _ _ _ _ hloop
    rw [← Option.some.inj h]
    refine ⟨?_, rfl⟩
    show cpu.length = events.length
    rw [hl]
    split
    · simp
    · rename_i hne
      exact not_not.mp hne

theorem sentinelTable : sentinelWorker.undistorted = [0, -1] := by
  show undistortTable (exampleExternals 0) distortedParameters 2 1 = [0, -1]
  simp [undistortTable, rasterPixels, undistortMapBody, distortPixel, idxDistort, inSensor,
    truncInt, exampleExternals, exampleParameters, distortedParameters, List.range,
    List.range.loop, List.flatMap, List.replicate]

/-- C6: the worker built for a 2x1 sensor with radial distortion has the table
`[0, -1]`. A batch of two events, the first at pixel (1, 0) (slot 1, lookup
invalid) and the second at pixel (0, 0) (lookup valid, undistorted to (0, 0)),
gives a coordinate batch of two entries: the second is (0, 0) and the first is
what the freshly allocated buffer held (here (7, 7)). The event with the
invalid lookup keeps an entry in the batch handed to the pose estimator and
the map updater; for every batch, that batch has as many entries as there are
events. -/
theorem invalid_lookup_keeps_entry :
    sentinelWorker.undistorted = [0, -1] ∧
    undistortPoint (exampleEvent 1 0) sentinelWorker.undistorted 2 1 =
      some (false, exampleEvent 1 0) ∧
    undistortPoint (exampleEvent 0 0) sentinelWorker.undistorted 2 1 =
      some (true, exampleEvent 0 0) ∧
    (∃ w1, trackPrepare (exampleExternals 0) sentinelWorker [exampleEvent 1 0, exampleEvent 0 0] =
        some w1 ∧
      w1.events_cpu_ = [(7, 7), (0, 0)] ∧ w1.events_gpu_ = [(7, 7), (0, 0)]) ∧
    (∀ (E : Externals) (w w1 : TrackingWorker) (events : List Event),
      trackPrepare E w events = some w1 → w1.events_gpu_.length = events.length) := by
  have hu : sentinelWorker.undistorted = [0, -1] := sentinelTable
  have hc : sentinelWorker.camera_parameters_ = distortedParameters := rfl
  have he : sentinelWorker.events_cpu_ = [] := rfl
  have h1 : undistortPoint (exampleEvent 1 0) [0, -1] 2 1 =
      some (false, exampleEvent 1 0) := by
    simp [undistortPoint, exampleEvent]
  have h2 : undistortPoint (exampleEvent 0 0) [0, -1] 2 1 =
      some (true, exampleEvent 0 0) := by
    simp [undistortPoint, exampleEvent]
  have hloop : undistortLoop [0, -1] 2 1 [exampleEvent 1 0, exampleEvent 0 0] 0
      [(7, 7), (7, 7)] = some [(7, 7), (0, 0)] := by
    simp only [undistortLoop, h1, h2]
    simp [exampleEvent]
  refine ⟨hu, hu ▸ h1, hu ▸ h2, ?_, ?_⟩
  · have hp : ∃ w1, trackPrepare (exampleExternals 0) sentinelWorker
        [exampleEvent 1 0, exampleEvent 0 0] = some w1 ∧
        w1.events_cpu_ = [(7, 7), (0, 0)] ∧ w1.events_gpu_ = w1.events_cpu_ := by
      unfold trackPrepare
      simp only [hu, hc, he]
      have hx : (exampleExternals 0).uninit_float2 = fun _ => (7, 7) := rfl
      simp [hx, distortedParameters, List.range, List.range.loop, hloop]
    obtain ⟨w1, a, b, c⟩ := hp
    exact ⟨w1, a, b, c ▸ b⟩
  · intro E w w1 events h
    obtain ⟨a, b⟩ := trackPrepare_length E w w1 events h
    rw [b, a]

/-! ## Lookup of one event -/

theorem slot_index_bounds (width height x y : Int) (hx : 0 ≤ x) (hx1 : x < width)
    (hy : 0 ≤ y) (hy1 : y < height) :
    0 ≤ y * width + x ∧ y * width + x < width * height := by
  have hw : 0 < width := lt_of_le_of_lt hx hx1
  constructor
  · have := mul_nonneg hy (le_of_lt hw)
    omega
  · have h1 : y + 1 ≤ height := hy1
    have h2 : (y + 1) * width ≤ height * width := mul_le_mul_of_nonneg_right h1 (le_of_lt hw)
    have h3 : (y + 1) * width = y * width + width := by ring
    have h4 : height * width = width * height := mul_comm _ _
    omega

theorem decode_index (width u v : Int) (hu : 0 ≤ u) (hu1 : u < width) (hv : 0 ≤ v) :
    Int.tmod (v * width + u) width = u ∧ Int.tdiv (v * width + u) width = v := by
  have hw : 0 < width := lt_of_le_of_lt hu hu1
  have hm : 0 ≤ v * width + u := add_nonneg (mul_nonneg hv (le_of_lt hw)) hu
  rw [Int.tmod_eq_emod hm (le_of_lt hw), Int.tdiv_eq_ediv hm (le_of_lt hw)]
  constructor
  · rw [add_comm, Int.add_mul_emod_self]
    exact Int.emod_eq_of_lt hu hu1
  · rw [add_comm, Int.add_mul_ediv_right _ _ (ne_of_gt hw), Int.ediv_eq_zero_of_lt hu hu1]
    simp

/-- C7: for `width > 0`, a table of length `width * height` and an event with
`0 <= x < width`, `0 <= y < height`, the slot `y * width + x` is inside the
table and `undistortPoint` returns false, leaving the event as it is, exactly
when that slot holds -1; otherwise it returns true, changes only `x_undist`
and `y_undist`, and decodes the stored index: a slot holding `v * width + u`
with `0 <= u < width`, `v >= 0` gives `x_undist = u`, `y_undist = v`. -/
theorem undistortPoint_decodes (event : Event) (undistort : List Int) (width height : Int)
    (hw : 0 < width) (hlen : (undistort.length : Int) = width * height)
    (hx : 0 ≤ event.x) (hx1 : event.x < width) (hy : 0 ≤ event.y) (hy1 : event.y < height) :
    ∃ m, undistort[(event.y * width + event.x).toNat]? = some m ∧
      (m = -1 → undistortPoint event undistort width height = some (false, event)) ∧
      (m ≠ -1 →
        undistortPoint event undistort width height =
          some (true, { event with x_undist := Int.tmod m width, y_undist := Int.tdiv m width })) ∧
      ((undistortPoint event undistort width height).map Prod.fst = some false ↔ m = -1) ∧
      (∀ u v : Int, 0 ≤ u → u < width → 0 ≤ v → m = v * width + u →
        undistortPoint event undistort width height =
          some (true, { event with x_undist := u, y_undist := v })) := by
  obtain ⟨h0, h1⟩ := slot_index_bounds width height event.x event.y hx hx1 hy hy1
  have hlt : (event.y * width + event.x).toNat < undistort.length := by omega
  have hget : undistort[(event.y * width + event.x).toNat]? =
      some (undistort[(event.y * width + event.x).toNat]) := List.getElem?_eq_getElem hlt
  have hwne : width ≠ 0 := ne_of_gt hw
  have hfalse : undistort[(event.y * width + event.x).toNat] = -1 →
      undistortPoint event undistort width height = some (false, event) := by
    intro hm
    simp [undistortPoint, not_lt.mpr h0, hget, hm]
  have htrue : undistort[(event.y * width + event.x).toNat] ≠ -1 →
      undistortPoint event undistort width height =
        some (true, { event with
          x_undist := Int.tmod (undistort[(event.y * width + event.x).toNat]) width,
          y_undist := Int.tdiv (undistort[(event.y * width + event.x).toNat]) width }) := by
    intro hm
    simp [undistortPoint, not_lt.mpr h0, hget, hm, hwne]
  refine ⟨_, hget, hfalse, htrue, ?_, ?_⟩
  · constructor
    · intro hres
      by_contra hm
      rw [htrue hm] at hres
      simp at hres
    · intro hm
      rw [hfalse hm]
      rfl
  · intro u v hu hu1 hv hm
    have hne : undistort[(event.y * width + event.x).toNat] ≠ -1 := by
      rw [hm]
      have := mul_nonneg hv (le_of_lt hw)
      omega
    obtain ⟨d1, d2⟩ := decode_index width u v hu hu1 hv
    rw [htrue hne, hm, d1, d2]

/-- Witness of C7: on the 2x2 table `[0, -1, 2, 3]` the event at (1, 0) reads
the sentinel and the event at (0, 1) reads 2 = 1 * 2 + 0. -/
theorem undistortPoint_decodes_witness :
    undistortPoint (exampleEvent 1 0) [0, -1, 2, 3] 2 2 = some (false, exampleEvent 1 0) ∧
    undistortPoint (exampleEvent 0 1) [0, -1, 2, 3] 2 2 =
      some (true, { exampleEvent 0 1 with x_undist := 0, y_undist := 1 }) := by
  obtain ⟨m, hm, hf, _, _, _⟩ := undistortPoint_decodes (exampleEvent 1 0) [0, -1, 2, 3] 2 2
    (by decide) (by decide) (by decide) (by decide) (by decide) (by decide)
  obtain ⟨n, hn, _, _, _, hd⟩ := undistortPoint_decodes (exampleEvent 0 1) [0, -1, 2, 3] 2 2
    (by decide) (by decide) (by decide) (by decide) (by decide) (by decide)
  have hm1 : m = -1 := by
    have : ([0, -1, 2, 3] : List Int)[((exampleEvent 1 0).y * 2 + (exampleEvent 1 0).x).toNat]? =
        some (-1) := by decide
    rw [this] at hm
    exact (Option.some.inj hm).symm
  have hn2 : n = 1 * 2 + 0 := by
    have : ([0, -1, 2, 3] : List Int)[((exampleEvent 0 1).y * 2 + (exampleEvent 0 1).x).toNat]? =
        some 2 := by decide
    rw [this] at hn
    exact (Option.some.inj hn).symm
  exact ⟨hf hm1, hd 0 1 (by decide) (by decide) (by decide) hn2⟩

/-! ## The undistortion table -/

theorem idxDistort_bounds (width height : Int) (d : ℚ × ℚ) (h : inSensor width height d) :
    0 ≤ idxDistort width d ∧ idxDistort width d < width * height := by
  obtain ⟨h1, h2, h3, h4⟩ := h
  have e1 : truncInt d.1 = Int.floor d.1 := if_pos h1
  have e2 : truncInt d.2 = Int.floor d.2 := if_pos h2
  unfold idxDistort
  rw [e1, e2]
  exact slot_index_bounds width height _ _ (Int.floor_nonneg.mpr h1) (Int.floor_lt.mpr h3)
    (Int.floor_nonneg.mpr h2) (Int.floor_lt.mpr h4)

theorem mem_rasterPixels (width height : Int) (p : Int × Int) :
    p ∈ rasterPixels width height ↔ 0 ≤ p.1 ∧ p.1 < width ∧ 0 ≤ p.2 ∧ p.2 < height := by
  unfold rasterPixels
  simp only [List.mem_flatMap, List.mem_map, List.mem_range]
  constructor
  · rintro ⟨v, hv, u, hu, rfl⟩
    simp only
    omega
  · rintro ⟨h1, h2, h3, h4⟩
    refine ⟨p.2.toNat, by omega, p.1.toNat, by omega, ?_⟩
    apply Prod.ext
    · simp only; omega
    · simp only; omega

theorem rasterPixels_sorted (width height : Int) :
    (rasterPixels width height).Pairwise
      fun a b => a.2 * width + a.1 < b.2 * width + b.1 := by
  unfold rasterPixels
  rw [List.pairwise_flatMap]
  constructor
  · intro v _
    rw [List.pairwise_map]
    refine (List.pairwise_lt_range width.toNat).imp ?_
    intro a b hab
    simp only
    omega
  · refine (List.pairwise_lt_range height.toNat).imp ?_
    intro v1 v2 hv x hx y hy
    rw [List.mem_map] at hx hy
    obtain ⟨u1, hu1, rfl⟩ := hx
    obtain ⟨u2, hu2, rfl⟩ := hy
    rw [List.mem_range] at hu1 hu2
    simp only
    have hw : (0 : Int) < width := by omega
    have h1 : ((v1 : Int) + 1) * width ≤ (v2 : Int) * width :=
      mul_le_mul_of_nonneg_right (by omega) (le_of_lt hw)
    have h2 : ((v1 : Int) + 1) * width = (v1 : Int) * width + width := by ring
    omega

theorem undistortMapBody_eq (E : Externals) (cp : Parameters) (width height : Int)
    (table : List Int) (p : Int × Int) :
    undistortMapBody E cp width height table p =
      if inSensor width height (distortPixel E cp p.1 p.2) then
        table.set (idxDistort width (distortPixel E cp p.1 p.2)).toNat (p.2 * width + p.1)
      else table := rfl

theorem undistortMapBody_fold (E : Externals) (cp : Parameters) (width height : Int) (L : Nat)
    (hL : (L : Int) = width * height) (ps : List (Int × Int))
    (hs : ps.Pairwise fun a b => a.2 * width + a.1 < b.2 * width + b.1)
    (hnn : ∀ p ∈ ps, 0 ≤ p.2 * width + p.1) :
    (ps.foldl (undistortMapBody E cp width height) (List.replicate L (-1))).length = L ∧
    ∀ s, s < L →
      ∃ m, (ps.foldl (undistortMapBody E cp width height) (List.replicate L (-1)))[s]? = some m ∧
        ((m = -1 ∧ ∀ p ∈ ps, ¬ writesSlot E cp width height p.1 p.2 s) ∨
         (∃ p ∈ ps, writesSlot E cp width height p.1 p.2 s ∧ m = p.2 * width + p.1 ∧
           ∀ q ∈ ps, writesSlot E cp width height q.1 q.2 s → q.2 * width + q.1 ≤ m)) := by
  induction ps using List.reverseRecOn with
  | nil =>
    refine ⟨by simp, ?_⟩
    intro s hsL
    exact ⟨-1, by simp [hsL], Or.inl ⟨rfl, by simp⟩⟩
  | append_singleton ps p ih =>
    rw [List.pairwise_append] at hs
    obtain ⟨hs1, _, hlt⟩ := hs
    have hltp : ∀ q ∈ ps, q.2 * width + q.1 < p.2 * width + p.1 :=
      fun q hq => hlt q hq p (List.mem_singleton_self p)
    obtain ⟨ihl, ihs⟩ := ih hs1 (fun q hq => hnn q (List.mem_append_left _ hq))
    rw [List.foldl_append]
    simp only [List.foldl_cons, List.foldl_nil]
    rw [undistortMapBody_eq]
    by_cases hP : inSensor width height (distortPixel E cp p.1 p.2)
    · rw [if_pos hP]
      obtain ⟨b0, b1⟩ := idxDistort_bounds width height _ hP
      refine ⟨by rw [List.length_set]; exact ihl, ?_⟩
      intro s hsL
      by_cases hks : (idxDistort width (distortPixel E cp p.1 p.2)).toNat = s
      · refine ⟨p.2 * width + p.1, ?_, Or.inr ⟨p, by simp, ⟨hP, by omega⟩, rfl, ?_⟩⟩
        · rw [hks]
          exact List.getElem?_set_self (by rw [ihl]; exact hsL)
        · intro q hq _
          rcases List.mem_append.mp hq with hq | hq
          · exact le_of_lt (hltp q hq)
          · rw [List.mem_singleton.mp hq]
      · obtain ⟨m, hm, hcase⟩ := ihs s hsL
        refine ⟨m, by rw [List.getElem?_set_ne hks]; exact hm, ?_⟩
        rcases hcase with ⟨hm1, hno⟩ | ⟨q, hq, hwq, hmq, hmax⟩
        · refine Or.inl ⟨hm1, ?_⟩
          intro q hq
          rcases List.mem_append.mp hq with hq | hq
          · exact hno q hq
          · rw [List.mem_singleton.mp hq]
            intro hw
            exact hks (by have := hw.2; omega)
        · refine Or.inr ⟨q, List.mem_append_left _ hq, hwq, hmq, ?_⟩
          intro r hr hwr
          rcases List.mem_append.mp hr with hr | hr
          · exact hmax r hr hwr
          · rw [List.mem_singleton.mp hr] at hwr
            exact absurd (by have := hwr.2; omega) hks
    · rw [if_neg hP]
      refine ⟨ihl, ?_⟩
      intro s hsL
      obtain ⟨m, hm, hcase⟩ := ihs s hsL
      refine ⟨m, hm, ?_⟩
      rcases hcase with ⟨hm1, hno⟩ | ⟨q, hq, hwq, hmq, hmax⟩
      · refine Or.inl ⟨hm1, ?_⟩
        intro q hq
        rcases List.mem_append.mp hq with hq | hq
        · exact hno q hq
        · rw [List.mem_singleton.mp hq]
          exact fun hw => hP hw.1
      · refine Or.inr ⟨q, List.mem_append_left _ hq, hwq, hmq, ?_⟩
        intro r hr hwr
        rcases List.mem_append.mp hr with hr | hr
        · exact hmax r hr hwr
        · rw [List.mem_singleton.mp hr] at hwr
          exact absurd hwr.1 hP

/-- C8: for `width, height > 0` and `fx, fy != 0` (arithmetic exact), the table
built by `getUndistortMap` has length `width * height`; every write lands
inside the table (a distorted position inside the sensor bounds has a slot
index in `[0, width * height)`); and each slot `s` holds -1 exactly when no
undistorted pixel `(u, v)` of the sensor has a distorted position inside the
sensor bounds with slot index `s`; otherwise it holds `v * width + u` for the
such pixel of largest index (the last one in raster order), a value in
`[0, width * height)`. -/
theorem undistortTable_spec (E : Externals) (cp : Parameters) (width height : Int)
    (hw : 0 < width) (hh : 0 < height) (hfx : cp.K_cam 0 0 ≠ 0) (hfy : cp.K_cam 1 1 ≠ 0) :
    ((undistortTable E cp width height).length : Int) = width * height ∧
    (∀ u v : Int, 0 ≤ u → u < width → 0 ≤ v → v < height →
      inSensor width height (distortPixel E cp u v) →
      0 ≤ idxDistort width (distortPixel E cp u v) ∧
      idxDistort width (distortPixel E cp u v) < width * height) ∧
    ∀ s : Nat, (s : Int) < width * height →
      ∃ m, (undistortTable E cp width height)[s]? = some m ∧
        (m = -1 ↔ ¬ ∃ u v : Int, 0 ≤ u ∧ u < width ∧ 0 ≤ v ∧ v < height ∧
          writesSlot E cp width height u v s) ∧
        (m ≠ -1 → 0 ≤ m ∧ m < width * height ∧
          ∃ u v : Int, 0 ≤ u ∧ u < width ∧ 0 ≤ v ∧ v < height ∧
            writesSlot E cp width height u v s ∧ m = v * width + u ∧
            ∀ u1 v1 : Int, 0 ≤ u1 → u1 < width → 0 ≤ v1 → v1 < height →
              writesSlot E cp width height u1 v1 s → v1 * width + u1 ≤ m) := by
  have hpos : 0 < width * height := mul_pos hw hh
  have hL : (((width * height).toNat : Nat) : Int) = width * height :=
    Int.toNat_of_nonneg (le_of_lt hpos)
  have hnn : ∀ p ∈ rasterPixels width height, 0 ≤ p.2 * width + p.1 := by
    intro p hp
    obtain ⟨h1, _, h3, _⟩ := (mem_rasterPixels width height p).mp hp
    exact add_nonneg (mul_nonneg h3 (le_of_lt hw)) h1
  obtain ⟨hlen, hslots⟩ := undistortMapBody_fold E cp width height (width * height).toNat hL
    (rasterPixels width height) (rasterPixels_sorted width height) hnn
  refine ⟨?_, ?_, ?_⟩
  · unfold undistortTable
    rw [hlen, hL]
  · intro u v _ _ _ _ hin
    exact idxDistort_bounds width height _ hin
  · intro s hs
    obtain ⟨m, hm, hcase⟩ := hslots s (by omega)
    refine ⟨m, hm, ?_⟩
    rcases hcase with ⟨hm1, hno⟩ | ⟨p, hp, hwp, hmp, hmax⟩
    · refine ⟨⟨fun _ => ?_, fun _ => hm1⟩, fun hne => absurd hm1 hne⟩
      rintro ⟨u, v, h1, h2, h3, h4, hwr⟩
      exact hno (u, v) ((mem_rasterPixels width height (u, v)).mpr ⟨h1, h2, h3, h4⟩) hwr
    · obtain ⟨h1, h2, h3, h4⟩ := (mem_rasterPixels width height p).mp hp
      obtain ⟨b0, b1⟩ := slot_index_bounds width height p.1 p.2 h1 h2 h3 h4
      have hex : ∃ u v : Int, 0 ≤ u ∧ u < width ∧ 0 ≤ v ∧ v < height ∧
          writesSlot E cp width height u v s := ⟨p.1, p.2, h1, h2, h3, h4, hwp⟩
      have hne : m ≠ -1 := by omega
      refine ⟨⟨fun h => absurd h hne, fun h => absurd hex h⟩, fun _ => ?_⟩
      refine ⟨by omega, by omega, p.1, p.2, h1, h2, h3, h4, hwp, hmp, ?_⟩
      intro u1 v1 g1 g2 g3 g4 hwr
      exact hmax (u1, v1) ((mem_rasterPixels width height (u1, v1)).mpr ⟨g1, g2, g3, g4⟩) hwr

/-- Witness of C8: the 2x2 sensor with identity intrinsics and no distortion;
the table has 4 slots. -/
theorem undistortTable_spec_witness :
    (0 : Int) < 2 ∧ exampleParameters.K_cam 0 0 ≠ 0 ∧ exampleParameters.K_cam 1 1 ≠ 0 ∧
    ((undistortTable (exampleExternals 0) exampleParameters 2 2).length : Int) = 2 * 2 := by
  have h2 : (0 : Int) < 2 := by decide
  have hfx : exampleParameters.K_cam 0 0 ≠ 0 := by simp [exampleParameters]
  have hfy : exampleParameters.K_cam 1 1 ≠ 0 := by simp [exampleParameters]
  exact ⟨h2, hfx, hfy,
    (undistortTable_spec (exampleExternals 0) exampleParameters 2 2 h2 h2 hfx hfy).1⟩

/-! ## Change of scale -/

theorem getUndistortMap_updateScale (E : Externals) (w : TrackingWorker) (value : ℚ) :
    (getUndistortMap E (updateScale w value)).undistorted = (getUndistortMap E w).undistorted :=
  rfl

/-- C9 (amended): `updateScale` stores the new upscale factor in `upscale_` and
in the GPU constants and touches nothing else; the table built by
`getUndistortMap` depends on the intrinsics, the distortion coefficients and
the sensor size only, so after `updateScale(value)` on a worker built with
upscale 1 a subsequent `getUndistortMap` builds the same table as the one the
constructor built, and every lookup gives the same result as before. -/
theorem updateScale_keeps_table (E : Externals) (cam_parameters : Parameters)
    (device_number : Int) (running reset_pose : Bool) (packet_t value : ℚ) :
    (TrackingWorker.new E cam_parameters device_number 1 running reset_pose packet_t).upscale_ = 1 ∧
    (updateScale (TrackingWorker.new E cam_parameters device_number 1 running reset_pose packet_t)
      value).upscale_ = value ∧
    (updateScale (TrackingWorker.new E cam_parameters device_number 1 running reset_pose packet_t)
      value).gpu_constants.upscale = value ∧
    (updateScale (TrackingWorker.new E cam_parameters device_number 1 running reset_pose packet_t)
      value).undistorted =
      (TrackingWorker.new E cam_parameters device_number 1 running reset_pose packet_t).undistorted ∧
    (getUndistortMap E (updateScale
      (TrackingWorker.new E cam_parameters device_number 1 running reset_pose packet_t)
      value)).undistorted =
      (TrackingWorker.new E cam_parameters device_number 1 running reset_pose packet_t).undistorted ∧
    ∀ (e : Event) (cw ch : Int),
      undistortPoint e (getUndistortMap E (updateScale
        (TrackingWorker.new E cam_parameters device_number 1 running reset_pose packet_t)
        value)).undistorted cw ch =
      undistortPoint e
        (TrackingWorker.new E cam_parameters device_number 1 running reset_pose packet_t).undistorted
        cw ch :=
  ⟨rfl, rfl, rfl, rfl, rfl, fun _ _ _ => rfl⟩

/-- Counterexample to C9: on the example worker, built with upscale 1, the
table that `getUndistortMap` builds after `updateScale(2.0)` is the table built
before the call, `[0, 1, 2, 3]`, and no event is undistorted differently. -/
theorem updateScale_same_table_example :
    exampleWorker.upscale_ = 1 ∧ (updateScale exampleWorker 2).upscale_ = 2 ∧
    exampleWorker.undistorted = [0, 1, 2, 3] ∧
    (getUndistortMap (exampleExternals 0) (updateScale exampleWorker 2)).undistorted =
      [0, 1, 2, 3] ∧
    ¬ ∃ e : Event,
      undistortPoint e
        (getUndistortMap (exampleExternals 0) (updateScale exampleWorker 2)).undistorted 2 2 ≠
      undistortPoint e exampleWorker.undistorted 2 2 := by
  have h : (getUndistortMap (exampleExternals 0) (updateScale exampleWorker 2)).undistorted =
      exampleWorker.undistorted := getUndistortMap_updateScale (exampleExternals 0) exampleWorker 2
  refine ⟨rfl, rfl, exampleTable 0, h.trans (exampleTable 0), ?_⟩
  rintro ⟨e, he⟩
  rw [h] at he
  exact he rfl

/-! ## Start and stop -/

theorem fill_pixels (img : ImageGpu ℚ) (v : ℚ) :
    (∀ p ∈ (fill img v).data, p = v) ∧ (fill img v).data.length = img.data.length ∧
    (fill img v).width = img.width ∧ (fill img v).height = img.height := by
  refine ⟨?_, by simp [fill], rfl, rfl⟩
  intro p hp
  simp only [fill, List.mem_map] at hp
  obtain ⟨_, _, rfl⟩ := hp
  rfl

/-- C10 (amended): for every prior state with `reset_pose_` set, after the
statements of `run` before its loop and likewise after `stop`: every pixel of
the occurrences buffer is 0 and every pixel of the normalization buffer is 1
(the buffers keep their size), `pose_` and `old_pose_` are the zero vector, the
all-events history is empty, `tracking_quality_` = 1 and `image_id_` = 0;
`running_` is true after the start sequence and false after `stop`, and `stop`
leaves the event queue empty. The radiance buffer `output_` is not written by
either: it is as before. -/
theorem reset_sequence (w : TrackingWorker) (h : w.reset_pose_ = true) :
    ((∀ p ∈ (runStart w).occurences_.data, p = 0) ∧
      (runStart w).occurences_.data.length = w.occurences_.data.length ∧
      (∀ p ∈ (runStart w).normalization_.data, p = 1) ∧
      (runStart w).normalization_.data.length = w.normalization_.data.length ∧
      (runStart w).pose_ = some 0 ∧ (runStart w).old_pose_ = some 0 ∧
      (runStart w).all_events_ = [] ∧ (runStart w).tracking_quality_ = 1 ∧
      (runStart w).image_id_ = 0 ∧ (runStart w).running_ = true ∧
      (runStart w).events_ = w.events_ ∧ (runStart w).output_ = w.output_) ∧
    ((∀ p ∈ (stop w).occurences_.data, p = 0) ∧
      (stop w).occurences_.data.length = w.occurences_.data.length ∧
      (∀ p ∈ (stop w).normalization_.data, p = 1) ∧
      (stop w).normalization_.data.length = w.normalization_.data.length ∧
      (stop w).pose_ = some 0 ∧ (stop w).old_pose_ = some 0 ∧
      (stop w).all_events_ = [] ∧ (stop w).tracking_quality_ = 1 ∧
      (stop w).image_id_ = 0 ∧ (stop w).running_ = false ∧
      (stop w).events_ = [] ∧ (stop w).output_ = w.output_) := by
  have hs : runStart w = { w with
      occurences_ := fill w.occurences_ 0
      normalization_ := fill w.normalization_ 1
      pose_ := some 0
      old_pose_ := some 0
      all_events_ := []
      running_ := true
      tracking_quality_ := 1
      image_id_ := 0 } := by
    simp [runStart, resetPoseBlock, h]
  have ht : stop w = { w with
      occurences_ := fill w.occurences_ 0
      normalization_ := fill w.normalization_ 1
      pose_ := some 0
      old_pose_ := some 0
      all_events_ := []
      running_ := false
      events_ := []
      tracking_quality_ := 1
      image_id_ := 0 } := by
    simp [stop, clearEvents, resetPoseBlock, h]
  obtain ⟨o1, o2, _, _⟩ := fill_pixels w.occurences_ 0
  obtain ⟨n1, n2, _, _⟩ := fill_pixels w.normalization_ 1
  rw [hs, ht]
  exact ⟨⟨o1, o2, n1, n2, rfl, rfl, rfl, rfl, rfl, rfl, rfl, rfl⟩,
    ⟨o1, o2, n1, n2, rfl, rfl, rfl, rfl, rfl, rfl, rfl, rfl⟩⟩

/-- Witness of C10 (amended): the example worker after one map update has
`reset_pose_` set; `stop` zeroes its occurrences and clears `running_`. -/
theorem reset_sequence_witness :
    mappedWorker.reset_pose_ = true ∧
    (∀ p ∈ (stop mappedWorker).occurences_.data, p = 0) ∧
    (stop mappedWorker).running_ = false ∧ (runStart mappedWorker).running_ = true := by
  have h : mappedWorker.reset_pose_ = true := rfl
  obtain ⟨hr, hs⟩ := reset_sequence mappedWorker h
  exact ⟨h, hs.1, hs.2.2.2.2.2.2.2.2.2.1, hr.2.2.2.2.2.2.2.2.2.1⟩

/-- Counterexample to C10: the example worker after one map update has
`reset_pose_` set and radiance 1 at each of its four pixels; after the start
sequence of `run`, and after `stop`, the radiance buffer still holds 1
everywhere, not 0, while occurrences are 0 and normalization is 1. -/
theorem radiance_survives_reset :
    mappedWorker.reset_pose_ = true ∧
    mappedWorker.output_.data = [1, 1, 1, 1] ∧
    (runStart mappedWorker).output_.data = [1, 1, 1, 1] ∧
    (stop mappedWorker).output_.data = [1, 1, 1, 1] ∧
    (stop mappedWorker).occurences_.data = [0, 0, 0, 0] ∧
    (stop mappedWorker).normalization_.data = [1, 1, 1, 1] ∧
    ¬ ∀ p ∈ (stop mappedWorker).output_.data, p = 0 := by
  have hd : mappedWorker.output_.data = [1, 1, 1, 1] := by
    simp [mappedWorker, updateMapCall, exampleExternals, exampleWorker, TrackingWorker.new,
      getUndistortMap, ImageGpu.filled, exampleParameters, List.replicate]
  have hr : (runStart mappedWorker).output_ = mappedWorker.output_ := by
    simp [runStart, resetPoseBlock]
    split <;> rfl
  have hs : (stop mappedWorker).output_ = mappedWorker.output_ := by
    simp [stop, clearEvents, resetPoseBlock]
    split <;> rfl
  have ho : (stop mappedWorker).occurences_.data = [0, 0, 0, 0] := by
    simp [stop, clearEvents, resetPoseBlock, fill, mappedWorker, updateMapCall, exampleExternals,
      exampleWorker, TrackingWorker.new, getUndistortMap, ImageGpu.filled, exampleParameters,
      List.replicate]
  have hn : (stop mappedWorker).normalization_.data = [1, 1, 1, 1] := by
    simp [stop, clearEvents, resetPoseBlock, fill, mappedWorker, updateMapCall, exampleExternals,
      exampleWorker, TrackingWorker.new, getUndistortMap, ImageGpu.filled, exampleParameters,
      List.replicate]
  refine ⟨rfl, hd, by rw [hr, hd], by rw [hs, hd], ho, hn, ?_⟩
  rw [hs, hd]
  intro hall
  have := hall 1 (List.mem_cons_self _ _)
  norm_num at this

/-! ## Pose estimation without photometric signal -/

theorem jacobianRow_zero (E : Externals) (w : TrackingWorker) (R : Matrix3fr) (X_hat : Vec3)
    (g : float4) (hx : g.x = 0) (hy : g.y = 0) : jacobianRow E w R X_hat g = 0 := by
  have h0 : (![g.x, g.y] : Fin 2 → ℚ) = 0 := by
    rw [hx, hy]
    funext i
    fin_cases i <;> rfl
  unfold jacobianRow
  simp only [h0, Matrix.zero_vecMul]

theorem zipWith_rows_zero (f : Vec3 → float4 → Vec3) (xs : List Vec3) (gs : List float4)
    (h : ∀ x, ∀ g ∈ gs, f x g = 0) : ∀ row ∈ List.zipWith f xs gs, row = 0 := by
  induction xs generalizing gs with
  | nil => simp
  | cons x xs ih =>
    cases gs with
    | nil => simp
    | cons g gs =>
      intro row hrow
      rw [List.zipWith_cons_cons, List.mem_cons] at hrow
      rcases hrow with hrow | hrow
      · rw [hrow]
        exact h x g (List.mem_cons_self g gs)
      · exact ih gs (fun y k hk => h y k (List.mem_cons_of_mem g hk)) row hrow

theorem sum_of_zeros {α : Type} [AddMonoid α] (l : List α) (h : ∀ a ∈ l, a = 0) : l.sum = 0 := by
  induction l with
  | nil => rfl
  | cons a t ih =>
    rw [List.sum_cons, h a (List.mem_cons_self a t),
      ih (fun b hb => h b (List.mem_cons_of_mem a hb)), add_zero]

theorem jacobian_rows_zero (E : Externals) (w : TrackingWorker) (accel_pose : Vec3)
    (h : ∀ g ∈ sampleGradients E w (some accel_pose), g.x = 0 ∧ g.y = 0) :
    ∀ row ∈ jacobian E w accel_pose, row = 0 :=
  zipWith_rows_zero _ _ _ fun x g hg => jacobianRow_zero E w _ x g (h g hg).1 (h g hg).2

theorem jacobian_length (E : Externals) (w : TrackingWorker) (accel_pose : Vec3) :
    (jacobian E w accel_pose).length = w.events_cpu_.length := by
  simp [jacobian, spherePoints, sampleGradients]

theorem normalMatrix_zero (E : Externals) (w : TrackingWorker) (accel_pose : Vec3)
    (h : ∀ g ∈ sampleGradients E w (some accel_pose), g.x = 0 ∧ g.y = 0) :
    normalMatrix E w accel_pose = 0 := by
  have hJ := jacobian_rows_zero E w accel_pose h
  have hsum : ((jacobian E w accel_pose).map fun row => Matrix.vecMulVec row row).sum =
      (0 : Matrix3fr) := by
    apply sum_of_zeros
    intro a ha
    rw [List.mem_map] at ha
    obtain ⟨row, hrow, rfl⟩ := ha
    rw [hJ row hrow]
    funext i j
    simp [Matrix.vecMulVec]
  unfold normalMatrix
  rw [hsum]
  funext i j
  simp

theorem gaussNewtonStep_eq (E : Externals) (w : TrackingWorker) (init_pose accel_pose : Vec3) :
    gaussNewtonStep E w init_pose accel_pose (sampleGradients E w (some accel_pose)) =
      match inverse E (normalMatrix E w accel_pose) with
      | none => none
      | some inv => some (accel_pose - inv.mulVec (normalVector E w init_pose accel_pose)) :=
  rfl

theorem zero_matrix_singular :
    (0 : Matrix3fr).det = 0 ∧ ¬ ∃ B : Matrix3fr, (0 : Matrix3fr) * B = 1 := by
  refine ⟨Matrix.det_zero ⟨0⟩, ?_⟩
  rintro ⟨B, hB⟩
  have h := congrFun (congrFun hB 0) 0
  simp at h

theorem inverse_zero (E : Externals) : inverse E 0 = none := by
  unfold inverse
  rw [if_pos zero_matrix_singular.1]

theorem updatePoseLoop_first (E : Externals) (w : TrackingWorker) (init : Option Vec3) (k : Nat)
    (s : PoseIter) :
    updatePoseLoop E w init (k + 1) s =
      updatePoseLoop E w init k (updatePoseIteration E w init s) := rfl

theorem updatePoseIteration_undefined (E : Externals) (w : TrackingWorker)
    (init : Option Vec3) (s : PoseIter) (h : s.accel_pose = none) :
    (updatePoseIteration E w init s).pose_ = none ∧
    (updatePoseIteration E w init s).accel_pose = none := by
  unfold updatePoseIteration
  simp only [h]
  exact ⟨trivial, trivial⟩

theorem updatePoseLoop_undefined (E : Externals) (w : TrackingWorker) (init : Option Vec3)
    (k : Nat) (s : PoseIter) (hp : s.pose_ = none) (ha : s.accel_pose = none) :
    (updatePoseLoop E w init k s).pose_ = none := by
  induction k generalizing s with
  | zero => exact hp
  | succ k ih =>
    rw [updatePoseLoop_first]
    obtain ⟨h1, h2⟩ := updatePoseIteration_undefined E w init s ha
    exact ih _ h1 h2

theorem updatePoseIteration_singular (E : Externals) (w : TrackingWorker) (p : Vec3)
    (s : PoseIter) (ha : s.accel_pose = some p)
    (h : ∀ g ∈ sampleGradients E w (some p), g.x = 0 ∧ g.y = 0) :
    (updatePoseIteration E w (some p) s).pose_ = none ∧
    (updatePoseIteration E w (some p) s).accel_pose = none := by
  have hstep : gaussNewtonStep E w p p (sampleGradients E w (some p)) = none := by
    rw [gaussNewtonStep_eq, normalMatrix_zero E w p h, inverse_zero]
  unfold updatePoseIteration
  simp only [ha, hstep]
  exact ⟨trivial, trivial⟩

theorem updatePose_singular (E : Externals) (w : TrackingWorker) (p : Vec3)
    (hp : w.pose_ = some p) (hit : 0 < w.iterations_)
    (h : ∀ g ∈ sampleGradients E w (some p), g.x = 0 ∧ g.y = 0) :
    (updatePose E w).1.pose_ = none ∧ (updatePose E w).1.old_pose_ = some p := by
  obtain ⟨k, hk⟩ : ∃ k, w.iterations_ = k + 1 := ⟨w.iterations_ - 1, by omega⟩
  refine ⟨?_, hp⟩
  show (updatePoseLoop E w w.pose_ w.iterations_
    { pose_ := w.pose_, accel_pose := w.pose_, image_gradients := w.image_gradients_cpu_ }).pose_ =
    none
  rw [hk, updatePoseLoop_first, hp]
  obtain ⟨h1, h2⟩ := updatePoseIteration_singular E w p
    { pose_ := some p, accel_pose := some p, image_gradients := w.image_gradients_cpu_ } rfl h
  exact updatePoseLoop_undefined E w (some p) k _ h1 h2

theorem exampleExternals_zero_gradient (r : ℚ) (w : TrackingWorker) (a : Option Vec3) :
    ∀ g ∈ sampleGradients (exampleExternals r) w a, g.x = 0 ∧ g.y = 0 := by
  intro g hg
  unfold sampleGradients at hg
  rw [List.mem_map] at hg
  obtain ⟨i, _, rfl⟩ := hg
  exact ⟨rfl, rfl⟩

theorem syntheticPoints : ∀ X ∈ spherePoints syntheticWorker, X = ![1, 0, 0] := by
  intro X hX
  have he : syntheticWorker.events_cpu_ = List.replicate 1500 (0, 0) := rfl
  have hR : syntheticWorker.R_sphere_ = !![0, 0, 1; 1, 0, 0; 0, 1, 0] := rfl
  have hK : syntheticWorker.camera_parameters_.K_caminv = 1 := rfl
  unfold spherePoints at hX
  rw [he, List.map_replicate, hR, hK] at hX
  rw [List.eq_of_mem_replicate hX]
  funext i
  fin_cases i <;> simp [Matrix.mulVec, Matrix.dotProduct, Fin.sum_univ_three]

theorem syntheticRotation : rodrigues (exampleExternals 0) 0 = 1 := by
  simp [rodrigues, vecNorm, exampleExternals]

/-- C11: a batch of 1500 synthetic events, `pose_` the zero vector on entry, 10
iterations and a sampler returning zero spatial gradient for every event in
every iteration. In the first iteration of `updatePose` the rotation is the
identity and every ray is (1, 0, 0) (no divisor of `dPI_dg` vanishes), every
row of `J` is zero, so the matrix `JtJ + alpha * diag(JtJ)` on which the
iteration calls `inverse()` is the zero matrix: its determinant is 0, it has no
inverse, and the new `pose_` has no defined value. After the 10 iterations
`pose_` has no defined value: it is not the zero vector. `old_pose_` is the
pose on entry. -/
theorem zero_gradient_singular_solve :
    syntheticWorker.events_cpu_.length = 1500 ∧ syntheticWorker.iterations_ = 10 ∧
    syntheticWorker.pose_ = some 0 ∧
    rodrigues (exampleExternals 0) 0 = 1 ∧
    (∀ X ∈ spherePoints syntheticWorker, X = ![1, 0, 0]) ∧
    (∀ a, ∀ g ∈ sampleGradients (exampleExternals 0) syntheticWorker a, g.x = 0 ∧ g.y = 0) ∧
    (jacobian (exampleExternals 0) syntheticWorker 0).length = 1500 ∧
    (∀ row ∈ jacobian (exampleExternals 0) syntheticWorker 0, row = 0) ∧
    normalMatrix (exampleExternals 0) syntheticWorker 0 = 0 ∧
    (normalMatrix (exampleExternals 0) syntheticWorker 0).det = 0 ∧
    (¬ ∃ B : Matrix3fr, normalMatrix (exampleExternals 0) syntheticWorker 0 * B = 1) ∧
    inverse (exampleExternals 0) (normalMatrix (exampleExternals 0) syntheticWorker 0) = none ∧
    (updatePoseIteration (exampleExternals 0) syntheticWorker syntheticWorker.pose_
        { pose_ := syntheticWorker.pose_, accel_pose := syntheticWorker.pose_,
          image_gradients := syntheticWorker.image_gradients_cpu_ }).pose_ = none ∧
    (updatePose (exampleExternals 0) syntheticWorker).1.pose_ = none ∧
    (updatePose (exampleExternals 0) syntheticWorker).1.pose_ ≠ some 0 ∧
    (updatePose (exampleExternals 0) syntheticWorker).1.old_pose_ = some 0 := by
  have hlen : syntheticWorker.events_cpu_.length = 1500 := List.length_replicate _ _
  have hpose : syntheticWorker.pose_ = some 0 := rfl
  have hit : syntheticWorker.iterations_ = 10 := rfl
  have hg := exampleExternals_zero_gradient 0 syntheticWorker
  have hN := normalMatrix_zero (exampleExternals 0) syntheticWorker 0 (hg (some 0))
  obtain ⟨hu, ho⟩ := updatePose_singular (exampleExternals 0) syntheticWorker 0 hpose
    (by rw [hit]; exact Nat.succ_pos 9) (hg (some 0))
  refine ⟨hlen, hit, hpose, syntheticRotation, syntheticPoints, hg, ?_, ?_, hN, ?_, ?_, ?_, ?_,
    hu, ?_, ho⟩
  · rw [jacobian_length, hlen]
  · exact jacobian_rows_zero _ _ _ (hg (some 0))
  · rw [hN]
    exact zero_matrix_singular.1
  · rw [hN]
    exact zero_matrix_singular.2
  · rw [hN]
    exact inverse_zero _
  · rw [hpose]
    exact (updatePoseIteration_singular (exampleExternals 0) syntheticWorker 0
      { pose_ := some 0, accel_pose := some 0,
        image_gradients := syntheticWorker.image_gradients_cpu_ } rfl (hg (some 0))).1
  · rw [hu]
    exact fun h => Option.noConfusion h

end PanoTracking
